import Mathlib

/-!
# Verification of the functions deployment planner

Shallow embedding of src/deploy/functions/deploymentPlanner.ts.

The two operations of the module are embedded as Lean functions over a
value-level data model:

* createFunctionsByRegionMap (the region mapper) — because the source mutates
  its input in place (it assigns a default to a missing regions field), the
  embedding returns a pair: the post-call state of the input list together
  with the produced region map.
* createDeploymentPlan (the planner) — because the source can throw a runtime
  TypeError (assigning to a property of an undefined eventTrigger), the
  embedding returns an Except value.

The external collaborators functionMatchesAnyGroup, deploymentTool.check and
getTopicName live outside this module; following the module contract they are
injected as opaque function parameters (capability injection), so every
theorem below is proved for all possible collaborator behaviours.

JS-object maps (a region map and label maps) are embedded as association
lists: insertion order is kept, which mirrors JS string-keyed object
iteration order, and lookup takes the first matching key.
-/

namespace DeploymentPlanner

/-- Event trigger descriptor; the planner writes its resource field. -/
structure EventTrigger where
  eventType : Option String := none
  resource : Option String := none
  service : Option String := none
deriving DecidableEq

/-- Https trigger descriptor; opaque to the planner. -/
structure HttpsTrigger where
  url : Option String := none
deriving DecidableEq

/-- Schedule descriptor (cron expression and metadata); only presence matters
to the planner. -/
structure ScheduleDescriptor where
  schedule : String := ""
  retryConfig : Option String := none
deriving DecidableEq

/-- The CloudFunctionTrigger record of the source.  Optional fields are
Option; JS string-keyed maps are association lists. -/
structure CloudFunctionTrigger where
  name : String
  sourceUploadUrl : Option String := none
  labels : List (String × String) := []
  environmentVariables : List (String × String) := []
  entryPoint : String := ""
  runtime : Option String := none
  vpcConnector : Option String := none
  vpcConnectorEgressSettings : Option String := none
  ingressSettings : Option String := none
  availableMemoryMb : Option Nat := none
  timeout : Option Nat := none
  maxInstances : Option Nat := none
  serviceAccountEmail : Option String := none
  httpsTrigger : Option HttpsTrigger := none
  eventTrigger : Option EventTrigger := none
  failurePolicy : Option Unit := none
  schedule : Option ScheduleDescriptor := none
  timeZone : Option String := none
  regions : Option (List String) := none
deriving DecidableEq

/-- RegionMap: a JS object keyed by region, embedded as an insertion-ordered
association list. -/
abbrev RegionMap := List (String × List CloudFunctionTrigger)

/-- JS object property read with a default of undefined (none). -/
def lookupLabel (labels : List (String × String)) (key : String) : Option String :=
  (labels.find? (fun p => p.1 == key)).map (fun p => p.2)

/-- Reading regionMap[region]: undefined keys behave as the empty list
(the source guards reads with a || [] initialization before pushing). -/
def lookupRegion : RegionMap → String → List CloudFunctionTrigger
  | [], _ => []
  | (r0, fns) :: rest, region => if r0 = region then fns else lookupRegion rest region

/-- regionMap[region] = regionMap[region] || []; regionMap[region].push(fn),
on the association-list embedding of a JS object. -/
def upsertRegion : RegionMap → String → CloudFunctionTrigger → RegionMap
  | [], region, fn => [(region, [fn])]
  | (r0, fns) :: rest, region, fn =>
    if r0 = region then (r0, fns ++ [fn]) :: rest
    else (r0, fns) :: upsertRegion rest region fn

/-- The fully-qualified name assembled by the source:
["projects", projectId, "locations", region, "functions", name].join("/"). -/
def fullyQualifiedName (projectId region name : String) : String :=
  "projects/" ++ projectId ++ "/locations/" ++ region ++ "/functions/" ++ name

/-- The deep copy made for one region: regions removed, name fully
qualified. -/
def regionCopy (projectId region : String) (t : CloudFunctionTrigger) : CloudFunctionTrigger :=
  { t with regions := none, name := fullyQualifiedName projectId region t.name }

/-- The in-place mutation performed by the source on each input trigger:
if (!trigger.regions) trigger.regions = ["us-central1"].  A present-but-empty
regions array is truthy in JS and is therefore left alone. -/
def withDefaultedRegions (t : CloudFunctionTrigger) : CloudFunctionTrigger :=
  if t.regions = none then { t with regions := some ["us-central1"] } else t

/-- Inner loop of createFunctionsByRegionMap: one push per region occurrence. -/
def insertRegions (projectId : String) (t : CloudFunctionTrigger) :
    List String → RegionMap → RegionMap
  | [], m => m
  | r :: rs, m => insertRegions projectId t rs (upsertRegion m r (regionCopy projectId r t))

/-- Recursion of createFunctionsByRegionMap over the trigger list, threading
the region map and recording the post-call state of each input trigger. -/
def createFunctionsByRegionMapGo (projectId : String) :
    List CloudFunctionTrigger → RegionMap → List CloudFunctionTrigger × RegionMap
  | [], m => ([], m)
  | t :: rest, m =>
    let t' := withDefaultedRegions t
    let m' := insertRegions projectId t' (t'.regions.getD []) m
    let out := createFunctionsByRegionMapGo projectId rest m'
    (t' :: out.1, out.2)

/-- createFunctionsByRegionMap.  First component: the state of the caller's
trigger list after the call (the source mutates triggers lacking a regions
field); second component: the returned region map. -/
def createFunctionsByRegionMap (projectId : String)
    (parsedTriggers : List CloudFunctionTrigger) :
    List CloudFunctionTrigger × RegionMap :=
  createFunctionsByRegionMapGo projectId parsedTriggers []

/-- The region list the source actually iterates over after its default
check: the regions field whenever present (empty included), the single
default region only when the field is absent. -/
def effectiveRegions (t : CloudFunctionTrigger) : List String :=
  match t.regions with
  | none => ["us-central1"]
  | some rs => rs

/-! ## Basic region-mapper lemmas -/

theorem withDefaultedRegions_regions_getD (t : CloudFunctionTrigger) :
    (withDefaultedRegions t).regions.getD [] = effectiveRegions t := by
  cases h : t.regions <;> simp [withDefaultedRegions, effectiveRegions, h]

theorem regionCopy_withDefaultedRegions (projectId r : String) (t : CloudFunctionTrigger) :
    regionCopy projectId r (withDefaultedRegions t) = regionCopy projectId r t := by
  cases h : t.regions <;> simp [withDefaultedRegions, regionCopy, h]

theorem lookupRegion_upsertRegion (m : RegionMap) (r : String) (fn : CloudFunctionTrigger)
    (r' : String) :
    lookupRegion (upsertRegion m r fn) r'
      = lookupRegion m r' ++ (if r' = r then [fn] else []) := by
  induction m with
  | nil =>
    by_cases h : r' = r
    · subst h
      simp [upsertRegion, lookupRegion]
    · have h2 : ¬(r = r') := fun e => h e.symm
      simp [upsertRegion, lookupRegion, h, h2]
  | cons hd tl ih =>
    obtain ⟨r0, fns⟩ := hd
    by_cases h0 : r0 = r
    · subst h0
      by_cases h' : r0 = r'
      · subst h'
        simp [upsertRegion, lookupRegion]
      · have h2 : ¬(r' = r0) := fun e => h' e.symm
        simp [upsertRegion, lookupRegion, h', h2]
    · by_cases h' : r0 = r'
      · subst h'
        have h2 : ¬(r0 = r) := h0
        simp [upsertRegion, lookupRegion, h0, h2, fun e => h0 e]
      · simp [upsertRegion, lookupRegion, h0, h', ih]

theorem lookupRegion_insertRegions (projectId : String) (t : CloudFunctionTrigger)
    (rs : List String) (m : RegionMap) (r : String) :
    lookupRegion (insertRegions projectId t rs m) r
      = lookupRegion m r ++ List.replicate (rs.count r) (regionCopy projectId r t) := by
  induction rs generalizing m with
  | nil => simp [insertRegions]
  | cons r0 rs ih =>
    simp only [insertRegions]
    rw [ih, lookupRegion_upsertRegion]
    by_cases h : r0 = r
    · subst h
      simp [List.count_cons, List.replicate_succ, List.append_assoc]
    · have h' : ¬(r = r0) := fun e => h e.symm
      simp [List.count_cons, h, h']

theorem createFunctionsByRegionMapGo_fst (projectId : String)
    (ts : List CloudFunctionTrigger) (m : RegionMap) :
    (createFunctionsByRegionMapGo projectId ts m).1 = ts.map withDefaultedRegions := by
  induction ts generalizing m with
  | nil => simp [createFunctionsByRegionMapGo]
  | cons t rest ih => simp [createFunctionsByRegionMapGo, ih]

theorem createFunctionsByRegionMapGo_lookup (projectId : String)
    (ts : List CloudFunctionTrigger) (m : RegionMap) (r : String) :
    lookupRegion (createFunctionsByRegionMapGo projectId ts m).2 r
      = lookupRegion m r
        ++ (ts.map (fun t =>
              List.replicate ((effectiveRegions t).count r) (regionCopy projectId r t))).flatten := by
  induction ts generalizing m with
  | nil => simp [createFunctionsByRegionMapGo]
  | cons t rest ih =>
    simp only [createFunctionsByRegionMapGo]
    rw [ih, lookupRegion_insertRegions, withDefaultedRegions_regions_getD,
      regionCopy_withDefaultedRegions]
    simp [List.append_assoc]

theorem lookupRegion_createFunctionsByRegionMap (projectId : String)
    (ts : List CloudFunctionTrigger) (r : String) :
    lookupRegion (createFunctionsByRegionMap projectId ts).2 r
      = (ts.map (fun t =>
            List.replicate ((effectiveRegions t).count r) (regionCopy projectId r t))).flatten := by
  simpa [createFunctionsByRegionMap, lookupRegion]
    using createFunctionsByRegionMapGo_lookup projectId ts [] r

theorem fullyQualifiedName_inj (projectId n r1 r2 : String) :
    fullyQualifiedName projectId r1 n = fullyQualifiedName projectId r2 n ↔ r1 = r2 := by
  constructor
  · intro h
    have hd := congrArg String.data h
    simp only [fullyQualifiedName, String.data_append, List.append_assoc] at hd
    have h1 := List.append_cancel_left hd
    have h2 := List.append_cancel_left h1
    have h3 : r1.data ++ ("/functions/" ++ n).data
        = r2.data ++ ("/functions/" ++ n).data := by
      simpa [String.data_append, List.append_assoc] using h2
    have h4 := List.append_cancel_right h3
    cases r1; cases r2; exact congrArg String.mk h4
  · intro h
    rw [h]

theorem regionCopy_name (projectId r : String) (t : CloudFunctionTrigger) :
    (regionCopy projectId r t).name = fullyQualifiedName projectId r t.name := rfl

/-! ## Deployment planner: data model -/

/-- Per-region plan fragment of the source. -/
structure RegionalDeployment where
  region : String
  sourceToken : Option String := none
  firstFunctionDeployment : Option CloudFunctionTrigger := none
  functionsToCreate : List CloudFunctionTrigger := []
  functionsToUpdate : List CloudFunctionTrigger := []
  schedulesToCreateOrUpdate : List CloudFunctionTrigger := []
deriving DecidableEq

/-- Top-level deployment plan of the source. -/
structure DeploymentPlan where
  regionalDeployments : List RegionalDeployment := []
  functionsToDelete : List String := []
  schedulesToDelete : List String := []
deriving DecidableEq

/-- The fresh RegionalDeployment initialized at the top of the region loop. -/
def emptyRegionalDeployment (region : String) : RegionalDeployment :=
  { region := region }

/-! ## Deployment planner: operations

The collaborators are injected: M embeds functionMatchesAnyGroup, chk embeds
deploymentTool.check, gtn embeds getTopicName.  They are leading parameters
of every planner operation; the remaining parameters follow the source
signature. -/

section Planner

variable (M : String → List (List String) → Bool)
variable (chk : List (String × String) → Bool)
variable (gtn : String → String)
variable (filters : List (List String))

/-- fn.eventTrigger.resource = getTopicName(fn.name), as a functional update.
Only applied under an eventTrigger-is-present check; the identity fallback
branch is never reached by the planner embedding. -/
def rewriteResource (fn : CloudFunctionTrigger) : CloudFunctionTrigger :=
  match fn.eventTrigger with
  | some et => { fn with eventTrigger := some { et with resource := some (gtn fn.name) } }
  | none => fn

/-- Tail of the per-function body: push to functionsToCreate when no existing
record matches, else push to functionsToUpdate and drop every existing record
with that name. -/
def pushCreateOrUpdate (fn : CloudFunctionTrigger) (matching : Option CloudFunctionTrigger)
    (rd : RegionalDeployment) (sdel : List String) (ex : List CloudFunctionTrigger) :
    RegionalDeployment × List String × List CloudFunctionTrigger :=
  match matching with
  | none => ({ rd with functionsToCreate := rd.functionsToCreate ++ [fn] }, sdel, ex)
  | some _ =>
    ({ rd with functionsToUpdate := rd.functionsToUpdate ++ [fn] }, sdel,
      ex.filter (fun exFn => !(exFn.name == fn.name)))

/-- Body of the inner loop of createDeploymentPlan for one desired function.
State: the regional deployment under construction, the plan-global
schedulesToDelete accumulated so far, and the working existing-functions
list.  A scheduled function without an event-trigger container makes the
source throw a TypeError when it assigns to fn.eventTrigger.resource; the
embedding surfaces that as an error value. -/
def processFunction (fn : CloudFunctionTrigger) (rd : RegionalDeployment)
    (sdel : List String) (ex : List CloudFunctionTrigger) :
    Except String (RegionalDeployment × List String × List CloudFunctionTrigger) :=
  if M fn.name filters then
    let matching := ex.find? (fun exFn => exFn.name == fn.name)
    match fn.schedule with
    | some _ =>
      match fn.eventTrigger with
      | none => .error "TypeError: Cannot set property resource of undefined"
      | some _ =>
        let fn' := rewriteResource gtn fn
        .ok (pushCreateOrUpdate fn' matching
          { rd with schedulesToCreateOrUpdate := rd.schedulesToCreateOrUpdate ++ [fn'] }
          sdel ex)
    | none =>
      let sdel' :=
        match matching with
        | some m =>
          if lookupLabel m.labels "deployment-scheduled" == some "true" then sdel ++ [m.name]
          else sdel
        | none => sdel
      .ok (pushCreateOrUpdate fn matching rd sdel' ex)
  else
    .ok (rd, sdel, ex)

/-- The inner loop of createDeploymentPlan over one region's function list. -/
def processFns :
    List CloudFunctionTrigger → RegionalDeployment → List String →
    List CloudFunctionTrigger →
    Except String (RegionalDeployment × List String × List CloudFunctionTrigger)
  | [], rd, sdel, ex => .ok (rd, sdel, ex)
  | fn :: rest, rd, sdel, ex =>
    match processFunction M gtn filters fn rd sdel ex with
    | .error e => .error e
    | .ok (rd', sdel', ex') => processFns rest rd' sdel' ex'

/-- The outer loop of createDeploymentPlan over the region map, accumulating
the regional deployments in region-map order. -/
def processRegions :
    RegionMap → List RegionalDeployment → List String → List CloudFunctionTrigger →
    Except String (List RegionalDeployment × List String × List CloudFunctionTrigger)
  | [], plans, sdel, ex => .ok (plans, sdel, ex)
  | (region, fns) :: rest, plans, sdel, ex =>
    match processFns M gtn filters fns (emptyRegionalDeployment region) sdel ex with
    | .error e => .error e
    | .ok (rd, sdel', ex') => processRegions rest (plans ++ [rd]) sdel' ex'

/-- createDeploymentPlan: region loop, then the two-filter deletion pass
(ownership label check, then the name filter applied only when the filter
list is non-empty), then the schedule deletions derived from deleted
functions. -/
def createDeploymentPlan (functionsInSourceByRegion : RegionMap)
    (existingFunctions : List CloudFunctionTrigger) : Except String DeploymentPlan :=
  match processRegions M gtn filters functionsInSourceByRegion [] [] existingFunctions with
  | .error e => .error e
  | .ok (plans, sdel, remaining) =>
    let functionsToDelete :=
      (remaining.filter (fun fn => chk fn.labels)).filter
        (fun fn => if filters.length != 0 then M fn.name filters else true)
    .ok { regionalDeployments := plans,
          functionsToDelete := functionsToDelete.map (fun fn => fn.name),
          schedulesToDelete := sdel ++ (functionsToDelete.filter
            (fun fn => lookupLabel fn.labels "deployment-scheduled" == some "true")).map
              (fun fn => fn.name) }

/-! ## A total companion of the planner loops

processFunction throws only when a filter-selected function has a schedule
but no eventTrigger; on all other inputs it is the following total step.
The equivalence lemmas below let every plan-shape proof proceed on the total
functions. -/

/-- The single condition under which the source throws while processing one
desired function. -/
def throwsOn (fn : CloudFunctionTrigger) : Bool :=
  M fn.name filters && fn.schedule.isSome && fn.eventTrigger.isNone

/-- Total version of the per-function step (the behaviour of processFunction
whenever it does not throw). -/
def specStep (fn : CloudFunctionTrigger) (rd : RegionalDeployment)
    (sdel : List String) (ex : List CloudFunctionTrigger) :
    RegionalDeployment × List String × List CloudFunctionTrigger :=
  if M fn.name filters then
    let matching := ex.find? (fun exFn => exFn.name == fn.name)
    match fn.schedule with
    | some _ =>
      let fn' := rewriteResource gtn fn
      pushCreateOrUpdate fn' matching
        { rd with schedulesToCreateOrUpdate := rd.schedulesToCreateOrUpdate ++ [fn'] }
        sdel ex
    | none =>
      let sdel' :=
        match matching with
        | some m =>
          if lookupLabel m.labels "deployment-scheduled" == some "true" then sdel ++ [m.name]
          else sdel
        | none => sdel
      pushCreateOrUpdate fn matching rd sdel' ex
  else (rd, sdel, ex)

/-- Total version of the inner loop. -/
def specFns :
    List CloudFunctionTrigger → RegionalDeployment → List String →
    List CloudFunctionTrigger →
    RegionalDeployment × List String × List CloudFunctionTrigger
  | [], rd, sdel, ex => (rd, sdel, ex)
  | fn :: rest, rd, sdel, ex =>
    let out := specStep M gtn filters fn rd sdel ex
    specFns rest out.1 out.2.1 out.2.2

/-- Total version of the outer loop. -/
def specRegions :
    RegionMap → List RegionalDeployment → List String → List CloudFunctionTrigger →
    List RegionalDeployment × List String × List CloudFunctionTrigger
  | [], plans, sdel, ex => (plans, sdel, ex)
  | (region, fns) :: rest, plans, sdel, ex =>
    let out := specFns M gtn filters fns (emptyRegionalDeployment region) sdel ex
    specRegions rest (plans ++ [out.1]) out.2.1 out.2.2

/-- Total version of createDeploymentPlan. -/
def specPlan (functionsInSourceByRegion : RegionMap)
    (existingFunctions : List CloudFunctionTrigger) : DeploymentPlan :=
  let out := specRegions M gtn filters functionsInSourceByRegion [] [] existingFunctions
  let functionsToDelete :=
    (out.2.2.filter (fun fn => chk fn.labels)).filter
      (fun fn => if filters.length != 0 then M fn.name filters else true)
  { regionalDeployments := out.1,
    functionsToDelete := functionsToDelete.map (fun fn => fn.name),
    schedulesToDelete := out.2.1 ++ (functionsToDelete.filter
      (fun fn => lookupLabel fn.labels "deployment-scheduled" == some "true")).map
        (fun fn => fn.name) }

end Planner

/-! ## Equivalence of the planner with its total companion -/

section PlannerEquiv

variable (M : String → List (List String) → Bool)
variable (chk : List (String × String) → Bool)
variable (gtn : String → String)
variable (filters : List (List String))

theorem throwsOn_eq_false_iff (fn : CloudFunctionTrigger) :
    throwsOn M filters fn = false
      ↔ (M fn.name filters = true → fn.schedule.isSome = true → fn.eventTrigger ≠ none) := by
  cases hM : M fn.name filters <;> cases hs : fn.schedule <;> cases he : fn.eventTrigger <;>
    simp [throwsOn, hM, hs, he]

theorem processFunction_eq_specStep (fn : CloudFunctionTrigger) (rd : RegionalDeployment)
    (sdel : List String) (ex : List CloudFunctionTrigger)
    (h : throwsOn M filters fn = false) :
    processFunction M gtn filters fn rd sdel ex
      = .ok (specStep M gtn filters fn rd sdel ex) := by
  by_cases hM : M fn.name filters
  · cases hs : fn.schedule with
    | none => simp [processFunction, specStep, hM, hs]
    | some s =>
      cases he : fn.eventTrigger with
      | none =>
        exfalso
        simp [throwsOn, hM, hs, he] at h
      | some et => simp [processFunction, specStep, hM, hs, he]
  · simp [processFunction, specStep, hM]

theorem processFunction_error (fn : CloudFunctionTrigger) (rd : RegionalDeployment)
    (sdel : List String) (ex : List CloudFunctionTrigger)
    (h : throwsOn M filters fn = true) :
    processFunction M gtn filters fn rd sdel ex
      = .error "TypeError: Cannot set property resource of undefined" := by
  simp only [throwsOn, Bool.and_eq_true] at h
  obtain ⟨⟨hM, hs⟩, he⟩ := h
  obtain ⟨s, hs'⟩ := Option.isSome_iff_exists.mp hs
  have he' : fn.eventTrigger = none := Option.isNone_iff_eq_none.mp he
  simp [processFunction, hM, hs', he']

theorem processFns_eq_specFns (fns : List CloudFunctionTrigger)
    (h : ∀ fn ∈ fns, throwsOn M filters fn = false) :
    ∀ (rd : RegionalDeployment) (sdel : List String) (ex : List CloudFunctionTrigger),
      processFns M gtn filters fns rd sdel ex
        = .ok (specFns M gtn filters fns rd sdel ex) := by
  induction fns with
  | nil => intro rd sdel ex; simp [processFns, specFns]
  | cons fn rest ih =>
    intro rd sdel ex
    rw [processFns, processFunction_eq_specStep M gtn filters fn rd sdel ex
      (h fn (List.mem_cons_self fn rest))]
    rcases hout : specStep M gtn filters fn rd sdel ex with ⟨rd', sdel', ex'⟩
    simp only [specFns, hout]
    exact ih (fun g hg => h g (List.mem_cons_of_mem fn hg)) rd' sdel' ex'

theorem processFns_ok_throwsOn (fns : List CloudFunctionTrigger)
    (out : RegionalDeployment × List String × List CloudFunctionTrigger) :
    ∀ (rd : RegionalDeployment) (sdel : List String) (ex : List CloudFunctionTrigger),
      processFns M gtn filters fns rd sdel ex = .ok out →
      ∀ fn ∈ fns, throwsOn M filters fn = false := by
  induction fns with
  | nil => intro rd sdel ex _ fn hfn; simp at hfn
  | cons fn rest ih =>
    intro rd sdel ex h g hg
    by_cases hb : throwsOn M filters fn = true
    · rw [processFns, processFunction_error M gtn filters fn rd sdel ex hb] at h
      exact absurd h (by simp)
    · have hb' : throwsOn M filters fn = false := by
        simpa using hb
      rw [processFns, processFunction_eq_specStep M gtn filters fn rd sdel ex hb'] at h
      rcases hout : specStep M gtn filters fn rd sdel ex with ⟨rd', sdel', ex'⟩
      rw [hout] at h
      rcases List.mem_cons.mp hg with hEq | hMem
      · subst hEq; exact hb'
      · exact ih rd' sdel' ex' h g hMem

theorem processRegions_eq_specRegions (m : RegionMap)
    (h : ∀ p ∈ m, ∀ fn ∈ p.2, throwsOn M filters fn = false) :
    ∀ (plans : List RegionalDeployment) (sdel : List String)
      (ex : List CloudFunctionTrigger),
      processRegions M gtn filters m plans sdel ex
        = .ok (specRegions M gtn filters m plans sdel ex) := by
  induction m with
  | nil => intro plans sdel ex; simp [processRegions, specRegions]
  | cons p rest ih =>
    obtain ⟨region, fns⟩ := p
    intro plans sdel ex
    rw [processRegions, processFns_eq_specFns M gtn filters fns
      (fun fn hfn => h (region, fns) (List.mem_cons_self _ rest) fn hfn)]
    rcases hout : specFns M gtn filters fns (emptyRegionalDeployment region) sdel ex with
      ⟨rd, sdel', ex'⟩
    simp only [specRegions, hout]
    exact ih (fun q hq fn hfn => h q (List.mem_cons_of_mem _ hq) fn hfn) (plans ++ [rd]) sdel' ex'

theorem processRegions_ok_throwsOn (m : RegionMap)
    (out : List RegionalDeployment × List String × List CloudFunctionTrigger) :
    ∀ (plans : List RegionalDeployment) (sdel : List String)
      (ex : List CloudFunctionTrigger),
      processRegions M gtn filters m plans sdel ex = .ok out →
      ∀ p ∈ m, ∀ fn ∈ p.2, throwsOn M filters fn = false := by
  induction m with
  | nil => intro plans sdel ex _ p hp; simp at hp
  | cons q rest ih =>
    obtain ⟨region, fns⟩ := q
    intro plans sdel ex h p hp fn hfn
    cases hstep : processFns M gtn filters fns (emptyRegionalDeployment region) sdel ex with
    | error e =>
      rw [processRegions, hstep] at h
      exact absurd h (by simp)
    | ok triple =>
      rcases triple with ⟨rd, sdel', ex'⟩
      rw [processRegions, hstep] at h
      rcases List.mem_cons.mp hp with hEq | hMem
      · subst hEq
        exact processFns_ok_throwsOn M gtn filters fns _ _ _ _ hstep fn hfn
      · exact ih (plans ++ [rd]) sdel' ex' h p hMem fn hfn

theorem createDeploymentPlan_eq_specPlan (m : RegionMap) (ex : List CloudFunctionTrigger)
    (h : ∀ p ∈ m, ∀ fn ∈ p.2, throwsOn M filters fn = false) :
    createDeploymentPlan M chk gtn filters m ex
      = .ok (specPlan M chk gtn filters m ex) := by
  unfold createDeploymentPlan specPlan
  rw [processRegions_eq_specRegions M gtn filters m h [] [] ex]

theorem createDeploymentPlan_ok_elim (m : RegionMap) (ex : List CloudFunctionTrigger)
    (plan : DeploymentPlan)
    (h : createDeploymentPlan M chk gtn filters m ex = .ok plan) :
    plan = specPlan M chk gtn filters m ex
      ∧ ∀ p ∈ m, ∀ fn ∈ p.2, throwsOn M filters fn = false := by
  cases hr : processRegions M gtn filters m [] [] ex with
  | error e =>
    unfold createDeploymentPlan at h
    rw [hr] at h
    exact absurd h (by simp)
  | ok triple =>
    have hforall := processRegions_ok_throwsOn M gtn filters m triple [] [] ex hr
    have heq := createDeploymentPlan_eq_specPlan M chk gtn filters m ex hforall
    rw [heq] at h
    exact ⟨(Except.ok.inj h).symm, hforall⟩

end PlannerEquiv

/-! ## Structure of one planner step -/

section StepStructure

variable (M : String → List (List String) → Bool)
variable (gtn : String → String)
variable (filters : List (List String))

theorem rewriteResource_name (fn : CloudFunctionTrigger) :
    (rewriteResource gtn fn).name = fn.name := by
  cases he : fn.eventTrigger <;> simp [rewriteResource, he]

theorem rewriteResource_schedule (fn : CloudFunctionTrigger) :
    (rewriteResource gtn fn).schedule = fn.schedule := by
  cases he : fn.eventTrigger <;> simp [rewriteResource, he]

theorem specStep_region_eq (fn : CloudFunctionTrigger) (rd : RegionalDeployment)
    (sdel : List String) (ex : List CloudFunctionTrigger) :
    (specStep M gtn filters fn rd sdel ex).1.region = rd.region := by
  by_cases hM : M fn.name filters
  · rcases hm : ex.find? (fun exFn => exFn.name == fn.name) with _ | m <;>
      cases hs : fn.schedule <;>
        simp [specStep, hM, hm, hs, pushCreateOrUpdate]
  · simp [specStep, hM]

theorem specStep_create_suffix (fn : CloudFunctionTrigger) (rd : RegionalDeployment)
    (sdel : List String) (ex : List CloudFunctionTrigger) :
    ∃ l, (specStep M gtn filters fn rd sdel ex).1.functionsToCreate
      = rd.functionsToCreate ++ l := by
  by_cases hM : M fn.name filters
  · rcases hm : ex.find? (fun exFn => exFn.name == fn.name) with _ | m
    · cases hs : fn.schedule
      · exact ⟨[fn], by simp [specStep, hM, hm, hs, pushCreateOrUpdate]⟩
      · exact ⟨[rewriteResource gtn fn], by simp [specStep, hM, hm, hs, pushCreateOrUpdate]⟩
    · cases hs : fn.schedule
      · exact ⟨[], by simp [specStep, hM, hm, hs, pushCreateOrUpdate]⟩
      · exact ⟨[], by simp [specStep, hM, hm, hs, pushCreateOrUpdate]⟩
  · exact ⟨[], by simp [specStep, hM]⟩

theorem specStep_update_suffix (fn : CloudFunctionTrigger) (rd : RegionalDeployment)
    (sdel : List String) (ex : List CloudFunctionTrigger) :
    ∃ l, (specStep M gtn filters fn rd sdel ex).1.functionsToUpdate
      = rd.functionsToUpdate ++ l := by
  by_cases hM : M fn.name filters
  · rcases hm : ex.find? (fun exFn => exFn.name == fn.name) with _ | m
    · cases hs : fn.schedule
      · exact ⟨[], by simp [specStep, hM, hm, hs, pushCreateOrUpdate]⟩
      · exact ⟨[], by simp [specStep, hM, hm, hs, pushCreateOrUpdate]⟩
    · cases hs : fn.schedule
      · exact ⟨[fn], by simp [specStep, hM, hm, hs, pushCreateOrUpdate]⟩
      · exact ⟨[rewriteResource gtn fn], by simp [specStep, hM, hm, hs, pushCreateOrUpdate]⟩
  · exact ⟨[], by simp [specStep, hM]⟩

theorem specStep_scheds_suffix (fn : CloudFunctionTrigger) (rd : RegionalDeployment)
    (sdel : List String) (ex : List CloudFunctionTrigger) :
    ∃ l, (specStep M gtn filters fn rd sdel ex).1.schedulesToCreateOrUpdate
      = rd.schedulesToCreateOrUpdate ++ l := by
  by_cases hM : M fn.name filters
  · rcases hm : ex.find? (fun exFn => exFn.name == fn.name) with _ | m <;>
      cases hs : fn.schedule
    · exact ⟨[], by simp [specStep, hM, hm, hs, pushCreateOrUpdate]⟩
    · exact ⟨[rewriteResource gtn fn], by simp [specStep, hM, hm, hs, pushCreateOrUpdate]⟩
    · exact ⟨[], by simp [specStep, hM, hm, hs, pushCreateOrUpdate]⟩
    · exact ⟨[rewriteResource gtn fn], by simp [specStep, hM, hm, hs, pushCreateOrUpdate]⟩
  · exact ⟨[], by simp [specStep, hM]⟩

theorem specStep_sdel_suffix (fn : CloudFunctionTrigger) (rd : RegionalDeployment)
    (sdel : List String) (ex : List CloudFunctionTrigger) :
    ∃ l, (specStep M gtn filters fn rd sdel ex).2.1 = sdel ++ l := by
  by_cases hM : M fn.name filters
  · rcases hm : ex.find? (fun exFn => exFn.name == fn.name) with _ | m
    · cases hs : fn.schedule
      · exact ⟨[], by simp [specStep, hM, hm, hs, pushCreateOrUpdate]⟩
      · exact ⟨[], by simp [specStep, hM, hm, hs, pushCreateOrUpdate]⟩
    · cases hs : fn.schedule
      · by_cases hlab : (lookupLabel m.labels "deployment-scheduled" == some "true") = true
        · exact ⟨[m.name], by simp [specStep, hM, hm, hs, hlab, pushCreateOrUpdate]⟩
        · have hlab' : (lookupLabel m.labels "deployment-scheduled" == some "true") = false := by
            simpa using hlab
          exact ⟨[], by simp [specStep, hM, hm, hs, hlab', pushCreateOrUpdate]⟩
      · exact ⟨[], by simp [specStep, hM, hm, hs, pushCreateOrUpdate]⟩
  · exact ⟨[], by simp [specStep, hM]⟩

theorem specStep_existing_eq (fn : CloudFunctionTrigger) (rd : RegionalDeployment)
    (sdel : List String) (ex : List CloudFunctionTrigger) :
    (specStep M gtn filters fn rd sdel ex).2.2
      = if M fn.name filters then ex.filter (fun exFn => !(exFn.name == fn.name)) else ex := by
  by_cases hM : M fn.name filters
  · rcases hm : ex.find? (fun exFn => exFn.name == fn.name) with _ | m
    · have hid : ex.filter (fun exFn => !(exFn.name == fn.name)) = ex :=
        List.filter_eq_self.mpr (fun a ha => by
          simpa using List.find?_eq_none.mp hm a ha)
      cases hs : fn.schedule <;>
        simp [specStep, hM, hm, hs, pushCreateOrUpdate, hid]
    · cases hs : fn.schedule <;>
        simp [specStep, hM, hm, hs, pushCreateOrUpdate, rewriteResource_name]
  · simp [specStep, hM]

theorem specStep_mem_existing (fn : CloudFunctionTrigger) (rd : RegionalDeployment)
    (sdel : List String) (ex : List CloudFunctionTrigger) (e : CloudFunctionTrigger) :
    e ∈ (specStep M gtn filters fn rd sdel ex).2.2
      ↔ e ∈ ex ∧ (M fn.name filters = true → fn.name ≠ e.name) := by
  rw [specStep_existing_eq]
  by_cases hM : M fn.name filters
  · simp [hM, List.mem_filter]
    intro _
    exact ⟨fun h e2 => h e2.symm, fun h e2 => h e2.symm⟩
  · simp [hM]

end StepStructure

/-! ## Structure of the planner loops -/

section LoopStructure

variable (M : String → List (List String) → Bool)
variable (gtn : String → String)
variable (filters : List (List String))

theorem specFns_region (fns : List CloudFunctionTrigger) :
    ∀ (rd : RegionalDeployment) (sdel : List String) (ex : List CloudFunctionTrigger),
      (specFns M gtn filters fns rd sdel ex).1.region = rd.region := by
  induction fns with
  | nil => intro rd sdel ex; simp [specFns]
  | cons fn rest ih =>
    intro rd sdel ex
    simp only [specFns]
    rw [ih]
    exact specStep_region_eq M gtn filters fn rd sdel ex

theorem specFns_create_mono (fns : List CloudFunctionTrigger) :
    ∀ (rd : RegionalDeployment) (sdel : List String) (ex : List CloudFunctionTrigger)
      (g : CloudFunctionTrigger), g ∈ rd.functionsToCreate →
      g ∈ (specFns M gtn filters fns rd sdel ex).1.functionsToCreate := by
  induction fns with
  | nil => intro rd sdel ex g h; simpa [specFns] using h
  | cons fn rest ih =>
    intro rd sdel ex g h
    simp only [specFns]
    obtain ⟨l, hl⟩ := specStep_create_suffix M gtn filters fn rd sdel ex
    exact ih _ _ _ g (by rw [hl]; exact List.mem_append_left l h)

theorem specFns_update_mono (fns : List CloudFunctionTrigger) :
    ∀ (rd : RegionalDeployment) (sdel : List String) (ex : List CloudFunctionTrigger)
      (g : CloudFunctionTrigger), g ∈ rd.functionsToUpdate →
      g ∈ (specFns M gtn filters fns rd sdel ex).1.functionsToUpdate := by
  induction fns with
  | nil => intro rd sdel ex g h; simpa [specFns] using h
  | cons fn rest ih =>
    intro rd sdel ex g h
    simp only [specFns]
    obtain ⟨l, hl⟩ := specStep_update_suffix M gtn filters fn rd sdel ex
    exact ih _ _ _ g (by rw [hl]; exact List.mem_append_left l h)

theorem specFns_scheds_mono (fns : List CloudFunctionTrigger) :
    ∀ (rd : RegionalDeployment) (sdel : List String) (ex : List CloudFunctionTrigger)
      (g : CloudFunctionTrigger), g ∈ rd.schedulesToCreateOrUpdate →
      g ∈ (specFns M gtn filters fns rd sdel ex).1.schedulesToCreateOrUpdate := by
  induction fns with
  | nil => intro rd sdel ex g h; simpa [specFns] using h
  | cons fn rest ih =>
    intro rd sdel ex g h
    simp only [specFns]
    obtain ⟨l, hl⟩ := specStep_scheds_suffix M gtn filters fn rd sdel ex
    exact ih _ _ _ g (by rw [hl]; exact List.mem_append_left l h)

theorem specFns_sdel_mono (fns : List CloudFunctionTrigger) :
    ∀ (rd : RegionalDeployment) (sdel : List String) (ex : List CloudFunctionTrigger)
      (n : String), n ∈ sdel → n ∈ (specFns M gtn filters fns rd sdel ex).2.1 := by
  induction fns with
  | nil => intro rd sdel ex n h; simpa [specFns] using h
  | cons fn rest ih =>
    intro rd sdel ex n h
    simp only [specFns]
    obtain ⟨l, hl⟩ := specStep_sdel_suffix M gtn filters fn rd sdel ex
    exact ih _ _ _ n (by rw [hl]; exact List.mem_append_left l h)

theorem specFns_mem_existing (fns : List CloudFunctionTrigger) :
    ∀ (rd : RegionalDeployment) (sdel : List String) (ex : List CloudFunctionTrigger)
      (e : CloudFunctionTrigger),
      e ∈ (specFns M gtn filters fns rd sdel ex).2.2
        ↔ e ∈ ex ∧ ∀ fn ∈ fns, M fn.name filters = true → fn.name ≠ e.name := by
  induction fns with
  | nil => intro rd sdel ex e; simp [specFns]
  | cons fn rest ih =>
    intro rd sdel ex e
    simp only [specFns]
    rw [ih, specStep_mem_existing]
    simp only [List.forall_mem_cons]
    tauto

theorem specFns_existing_subset (fns : List CloudFunctionTrigger)
    (rd : RegionalDeployment) (sdel : List String) (ex : List CloudFunctionTrigger) :
    ∀ e ∈ (specFns M gtn filters fns rd sdel ex).2.2, e ∈ ex :=
  fun e he => ((specFns_mem_existing M gtn filters fns rd sdel ex e).mp he).1

theorem specRegions_plans_mono (m : RegionMap) :
    ∀ (plans : List RegionalDeployment) (sdel : List String)
      (ex : List CloudFunctionTrigger) (rd : RegionalDeployment), rd ∈ plans →
      rd ∈ (specRegions M gtn filters m plans sdel ex).1 := by
  induction m with
  | nil => intro plans sdel ex rd h; simpa [specRegions] using h
  | cons p rest ih =>
    obtain ⟨region, fns⟩ := p
    intro plans sdel ex rd h
    simp only [specRegions]
    exact ih _ _ _ rd (List.mem_append_left _ h)

theorem specRegions_sdel_mono (m : RegionMap) :
    ∀ (plans : List RegionalDeployment) (sdel : List String)
      (ex : List CloudFunctionTrigger) (n : String), n ∈ sdel →
      n ∈ (specRegions M gtn filters m plans sdel ex).2.1 := by
  induction m with
  | nil => intro plans sdel ex n h; simpa [specRegions] using h
  | cons p rest ih =>
    obtain ⟨region, fns⟩ := p
    intro plans sdel ex n h
    simp only [specRegions]
    exact ih _ _ _ n (specFns_sdel_mono M gtn filters fns _ _ _ n h)

theorem specRegions_mem_existing (m : RegionMap) :
    ∀ (plans : List RegionalDeployment) (sdel : List String)
      (ex : List CloudFunctionTrigger) (e : CloudFunctionTrigger),
      e ∈ (specRegions M gtn filters m plans sdel ex).2.2
        ↔ e ∈ ex ∧ ∀ p ∈ m, ∀ fn ∈ p.2, M fn.name filters = true → fn.name ≠ e.name := by
  induction m with
  | nil => intro plans sdel ex e; simp [specRegions]
  | cons p rest ih =>
    obtain ⟨region, fns⟩ := p
    intro plans sdel ex e
    simp only [specRegions]
    rw [ih, specFns_mem_existing]
    simp only [List.forall_mem_cons]
    tauto

theorem specRegions_existing_subset (m : RegionMap)
    (plans : List RegionalDeployment) (sdel : List String)
    (ex : List CloudFunctionTrigger) :
    ∀ e ∈ (specRegions M gtn filters m plans sdel ex).2.2, e ∈ ex :=
  fun e he => ((specRegions_mem_existing M gtn filters m plans sdel ex e).mp he).1

end LoopStructure

/-! ## Exact equations for one planner step -/

section StepEquations

variable (M : String → List (List String) → Bool)
variable (gtn : String → String)
variable (filters : List (List String))

/-- The record the step pushes into the create or update list: the rewritten
copy for a scheduled function, the function itself otherwise. -/
def pushedFn (fn : CloudFunctionTrigger) : CloudFunctionTrigger :=
  if fn.schedule.isSome then rewriteResource gtn fn else fn

theorem pushedFn_name (fn : CloudFunctionTrigger) : (pushedFn gtn fn).name = fn.name := by
  unfold pushedFn
  split
  · exact rewriteResource_name gtn fn
  · rfl

theorem pushedFn_schedule (fn : CloudFunctionTrigger) :
    (pushedFn gtn fn).schedule = fn.schedule := by
  unfold pushedFn
  split
  · exact rewriteResource_schedule gtn fn
  · rfl

theorem rewriteResource_resource (fn : CloudFunctionTrigger) (et : EventTrigger)
    (he : fn.eventTrigger = some et) :
    (rewriteResource gtn fn).eventTrigger.bind EventTrigger.resource = some (gtn fn.name) := by
  simp [rewriteResource, he]

theorem specStep_create_eq (fn : CloudFunctionTrigger) (rd : RegionalDeployment)
    (sdel : List String) (ex : List CloudFunctionTrigger) :
    (specStep M gtn filters fn rd sdel ex).1.functionsToCreate
      = rd.functionsToCreate ++
          (if M fn.name filters = true
              ∧ ex.find? (fun exFn => exFn.name == fn.name) = none
           then [pushedFn gtn fn] else []) := by
  by_cases hM : M fn.name filters
  · rcases hm : ex.find? (fun exFn => exFn.name == fn.name) with _ | mf <;>
      cases hs : fn.schedule <;>
        simp [specStep, hM, hm, hs, pushCreateOrUpdate, pushedFn]
  · simp [specStep, hM]

theorem specStep_update_eq (fn : CloudFunctionTrigger) (rd : RegionalDeployment)
    (sdel : List String) (ex : List CloudFunctionTrigger) :
    (specStep M gtn filters fn rd sdel ex).1.functionsToUpdate
      = rd.functionsToUpdate ++
          (if M fn.name filters = true
              ∧ (ex.find? (fun exFn => exFn.name == fn.name)).isSome
           then [pushedFn gtn fn] else []) := by
  by_cases hM : M fn.name filters
  · rcases hm : ex.find? (fun exFn => exFn.name == fn.name) with _ | mf <;>
      cases hs : fn.schedule <;>
        simp [specStep, hM, hm, hs, pushCreateOrUpdate, pushedFn]
  · simp [specStep, hM]

theorem specStep_scheds_eq (fn : CloudFunctionTrigger) (rd : RegionalDeployment)
    (sdel : List String) (ex : List CloudFunctionTrigger) :
    (specStep M gtn filters fn rd sdel ex).1.schedulesToCreateOrUpdate
      = rd.schedulesToCreateOrUpdate ++
          (if M fn.name filters = true ∧ fn.schedule.isSome = true
           then [rewriteResource gtn fn] else []) := by
  by_cases hM : M fn.name filters
  · rcases hm : ex.find? (fun exFn => exFn.name == fn.name) with _ | mf <;>
      cases hs : fn.schedule <;>
        simp [specStep, hM, hm, hs, pushCreateOrUpdate]
  · simp [specStep, hM]

theorem specStep_sdel_eq (fn : CloudFunctionTrigger) (rd : RegionalDeployment)
    (sdel : List String) (ex : List CloudFunctionTrigger) :
    (specStep M gtn filters fn rd sdel ex).2.1
      = sdel ++
          (if M fn.name filters = true ∧ fn.schedule = none
           then match ex.find? (fun exFn => exFn.name == fn.name) with
                | some mf =>
                  if lookupLabel mf.labels "deployment-scheduled" == some "true"
                  then [mf.name] else []
                | none => []
           else []) := by
  by_cases hM : M fn.name filters
  · rcases hm : ex.find? (fun exFn => exFn.name == fn.name) with _ | mf
    · cases hs : fn.schedule <;>
        simp [specStep, hM, hm, hs, pushCreateOrUpdate]
    · cases hs : fn.schedule
      · by_cases hlab : (lookupLabel mf.labels "deployment-scheduled" == some "true") = true
        · simp [specStep, hM, hm, hs, hlab, pushCreateOrUpdate]
        · have hlab' : (lookupLabel mf.labels "deployment-scheduled" == some "true") = false := by
            simpa using hlab
          simp [specStep, hM, hm, hs, hlab', pushCreateOrUpdate]
      · simp [specStep, hM, hm, hs, pushCreateOrUpdate]
  · simp [specStep, hM]

theorem specStep_existing_subset (fn : CloudFunctionTrigger) (rd : RegionalDeployment)
    (sdel : List String) (ex : List CloudFunctionTrigger) :
    ∀ e ∈ (specStep M gtn filters fn rd sdel ex).2.2, e ∈ ex := by
  intro e he
  exact ((specStep_mem_existing M gtn filters fn rd sdel ex e).mp he).1

end StepEquations

/-! ## C1, C2, C10: region mapper claims -/

/-- C1 (amended): for every input definition, the region list iterated by
createFunctionsByRegionMap is the regions field whenever that field is
present — even when it is the empty list — and the single default region
us-central1 only when the field is absent; each region r of that list
receives one fully-qualified copy per occurrence, so a definition whose
regions field is present but empty contributes no output record at all. -/
theorem createFunctionsByRegionMap_effective_regions (projectId : String)
    (ts : List CloudFunctionTrigger) (r : String) :
    lookupRegion (createFunctionsByRegionMap projectId ts).2 r
      = (ts.map (fun t =>
          List.replicate ((effectiveRegions t).count r) (regionCopy projectId r t))).flatten
    ∧ ∀ t : CloudFunctionTrigger, t.regions = some [] →
        (createFunctionsByRegionMap projectId [t]).2 = [] := by
  refine ⟨lookupRegion_createFunctionsByRegionMap projectId ts r, ?_⟩
  intro t ht
  have h1 : withDefaultedRegions t = t := by
    simp [withDefaultedRegions, ht]
  simp [createFunctionsByRegionMap, createFunctionsByRegionMapGo, h1, ht, insertRegions]

/-- C1 witness: a definition with a present-but-empty regions list produces
an empty region map. -/
theorem createFunctionsByRegionMap_effective_regions_witness :
    (createFunctionsByRegionMap "p"
      [{ name := "a", regions := some ([] : List String) }]).2 = [] :=
  (createFunctionsByRegionMap_effective_regions "p"
      [{ name := "a", regions := some ([] : List String) }] "us-central1").2
    { name := "a", regions := some ([] : List String) } rfl

/-- C1 counterexample: the claim says a present-but-empty regions field
yields exactly one output record placed in us-central1; the code yields
zero records, because an empty array is truthy in JS and is not replaced
by the default. -/
theorem createFunctionsByRegionMap_empty_regions_cex :
    (createFunctionsByRegionMap "p"
        [{ name := "a", regions := some ([] : List String) }]).2 = []
    ∧ ¬ (lookupRegion (createFunctionsByRegionMap "p"
          [{ name := "a", regions := some ([] : List String) }]).2
            "us-central1").length = 1 := by
  constructor
  · rfl
  · decide

/-- C2 (amended): createFunctionsByRegionMap is not pure in its input: after
the call each input definition that lacked a regions field has had regions
set to the default list, while every definition whose regions field was
present (empty included) is unchanged. -/
theorem createFunctionsByRegionMap_post_state (projectId : String)
    (ts : List CloudFunctionTrigger) :
    (createFunctionsByRegionMap projectId ts).1 = ts.map withDefaultedRegions
    ∧ (∀ t : CloudFunctionTrigger, t.regions ≠ none → withDefaultedRegions t = t)
    ∧ (∀ t : CloudFunctionTrigger, t.regions = none →
        withDefaultedRegions t = { t with regions := some ["us-central1"] }) := by
  refine ⟨createFunctionsByRegionMapGo_fst projectId ts [], fun t ht => ?_, fun t ht => ?_⟩
  · simp [withDefaultedRegions, ht]
  · simp [withDefaultedRegions, ht]

/-- C2 witness: the post-state law evaluated at a one-element input, and the
no-mutation case for a trigger with a present regions field. -/
theorem createFunctionsByRegionMap_post_state_witness :
    (createFunctionsByRegionMap "p" [{ name := "a" }]).1
      = ([{ name := "a" }] : List CloudFunctionTrigger).map withDefaultedRegions
    ∧ withDefaultedRegions { name := "a", regions := some ["r"] }
      = { name := "a", regions := some ["r"] } :=
  ⟨(createFunctionsByRegionMap_post_state "p" [{ name := "a" }]).1,
   (createFunctionsByRegionMap_post_state "p" []).2.1
     { name := "a", regions := some ["r"] } (by simp)⟩

/-- C2 counterexample: the claim says the input list is unchanged and a
definition lacking regions still lacks it after the call; in the code the
call rewrites such a definition, giving it regions = ["us-central1"]. -/
theorem createFunctionsByRegionMap_mutation_cex :
    (createFunctionsByRegionMap "p" [{ name := "a" }]).1 ≠ [{ name := "a" }]
    ∧ ((createFunctionsByRegionMap "p" [{ name := "a" }]).1.map
        (fun t => t.regions)) = [some ["us-central1"]] := by
  constructor
  · decide
  · decide

/-- C10: a regions list with repeated occurrences of a region produces one
record per occurrence in that region's list, all with the same
fully-qualified name, and the names produced for two regions agree exactly
when the regions agree. -/
theorem createFunctionsByRegionMap_duplicate_regions (projectId : String)
    (t : CloudFunctionTrigger) (rs : List String) (h : t.regions = some rs) :
    (∀ r, lookupRegion (createFunctionsByRegionMap projectId [t]).2 r
        = List.replicate (rs.count r) (regionCopy projectId r t))
    ∧ ∀ r1 r2 : String,
        ((regionCopy projectId r1 t).name = (regionCopy projectId r2 t).name ↔ r1 = r2) := by
  constructor
  · intro r
    rw [lookupRegion_createFunctionsByRegionMap]
    simp [effectiveRegions, h]
  · intro r1 r2
    rw [regionCopy_name, regionCopy_name]
    exact fullyQualifiedName_inj projectId t.name r1 r2

/-- C10 witness: a definition listing region r twice yields two records for
r with one shared name, and its copies for two distinct regions get
distinct names. -/
theorem createFunctionsByRegionMap_duplicate_regions_witness :
    lookupRegion (createFunctionsByRegionMap "p"
        [{ name := "a", regions := some ["r", "r"] }]).2 "r"
      = List.replicate ((["r", "r"] : List String).count "r")
          (regionCopy "p" "r" { name := "a", regions := some ["r", "r"] })
    ∧ ¬ ((regionCopy "p" "r" { name := "a", regions := some ["r", "r"] }).name
        = (regionCopy "p" "other" { name := "a", regions := some ["r", "r"] }).name) := by
  have h := createFunctionsByRegionMap_duplicate_regions "p"
    { name := "a", regions := some ["r", "r"] } ["r", "r"] rfl
  exact ⟨h.1 "r", fun hEq => absurd ((h.2 "r" "other").mp hEq) (by decide)⟩

/-! ## C9: totality and failure of the planner -/

/-- C9 (amended): createDeploymentPlan produces a plan exactly when every
filter-selected desired function with a schedule has an eventTrigger
container; when some filter-selected scheduled function lacks one, the run
fails fast with a thrown runtime TypeError instead of producing a plan,
while a malformed function that the filter rejects is skipped and causes no
failure. -/
theorem createDeploymentPlan_total_iff (M : String → List (List String) → Bool)
    (chk : List (String × String) → Bool) (gtn : String → String)
    (filters : List (List String)) (m : RegionMap) (ex : List CloudFunctionTrigger) :
    (∃ plan, createDeploymentPlan M chk gtn filters m ex = Except.ok plan)
      ↔ ∀ p ∈ m, ∀ fn ∈ p.2,
          M fn.name filters = true → fn.schedule.isSome = true → fn.eventTrigger ≠ none := by
  constructor
  · rintro ⟨plan, h⟩ p hp fn hfn
    exact (throwsOn_eq_false_iff M filters fn).mp
      ((createDeploymentPlan_ok_elim M chk gtn filters m ex plan h).2 p hp fn hfn)
  · intro h
    exact ⟨_, createDeploymentPlan_eq_specPlan M chk gtn filters m ex
      (fun p hp fn hfn => (throwsOn_eq_false_iff M filters fn).mpr (h p hp fn hfn))⟩

/-- C9 witness: a well-formed scheduled function yields a plan. -/
theorem createDeploymentPlan_total_iff_witness :
    ∃ plan, createDeploymentPlan (fun _ _ => true) (fun _ => true) (fun n => n)
        ([] : List (List String))
        [("r", [{ name := "a", schedule := some {}, eventTrigger := some {} }])]
        ([] : List CloudFunctionTrigger)
      = Except.ok plan :=
  (createDeploymentPlan_total_iff (fun _ _ => true) (fun _ => true) (fun n => n)
    ([] : List (List String))
    [("r", [{ name := "a", schedule := some {}, eventTrigger := some {} }])]
    ([] : List CloudFunctionTrigger)).mpr (by decide)

/-- C9 counterexample: the claim says that whenever a desired function has a
schedule but no eventTrigger container the implementation fails fast with a
clearly labeled validation error.  Here such a function is present but the
filter rejects it, and the call succeeds, producing a plan; no validation of
the malformed function occurs. -/
theorem createDeploymentPlan_fail_fast_cex :
    createDeploymentPlan (fun _ _ => false) (fun _ => true) (fun n => n) [["z"]]
        [("r", [{ name := "bad", schedule := some {}, eventTrigger := none }])]
        ([] : List CloudFunctionTrigger)
      = Except.ok { regionalDeployments := [{ region := "r" }],
                    functionsToDelete := [], schedulesToDelete := [] }
    ∧ ({ name := "bad", schedule := some {}, eventTrigger := none }
        : CloudFunctionTrigger).schedule.isSome = true
    ∧ ({ name := "bad", schedule := some {}, eventTrigger := none }
        : CloudFunctionTrigger).eventTrigger = none := by
  exact ⟨rfl, rfl, rfl⟩

/-! ## C3: characterization of functionsToDelete -/

/-- C3: a fully-qualified name is in the plan's functionsToDelete exactly
when it names an existing record that no filter-selected desired record in
any region matches by name, whose labels pass the injected ownership check,
and, when the filter list is non-empty, whose name is selected by the
injected filter predicate; with an empty filter list every ownership-eligible
unmatched existing record is deleted. -/
theorem createDeploymentPlan_functionsToDelete_iff
    (M : String → List (List String) → Bool) (chk : List (String × String) → Bool)
    (gtn : String → String) (filters : List (List String))
    (m : RegionMap) (ex : List CloudFunctionTrigger) (plan : DeploymentPlan)
    (h : createDeploymentPlan M chk gtn filters m ex = Except.ok plan) (n : String) :
    n ∈ plan.functionsToDelete
      ↔ ∃ e ∈ ex, e.name = n ∧ chk e.labels = true
          ∧ (¬ ∃ p ∈ m, ∃ fn ∈ p.2, M fn.name filters = true ∧ fn.name = n)
          ∧ (filters ≠ [] → M n filters = true) := by
  obtain ⟨hplan, -⟩ := createDeploymentPlan_ok_elim M chk gtn filters m ex plan h
  subst hplan
  constructor
  · intro hn
    simp only [specPlan, List.mem_map, List.mem_filter] at hn
    obtain ⟨e, ⟨⟨heRem, hchk⟩, hpred⟩, hname⟩ := hn
    have hmem := (specRegions_mem_existing M gtn filters m [] [] ex e).mp heRem
    refine ⟨e, hmem.1, hname, hchk, ?_, ?_⟩
    · rintro ⟨p, hp, fn, hfn, hMfn, hfnName⟩
      exact hmem.2 p hp fn hfn hMfn (by rw [hfnName, hname])
    · intro hne
      rcases filters with _ | ⟨g, gs⟩
      · exact absurd rfl hne
      · rw [← hname]
        simpa using hpred
  · rintro ⟨e, heEx, hname, hchk, hnomatch, hfilt⟩
    simp only [specPlan, List.mem_map, List.mem_filter]
    refine ⟨e, ⟨⟨?_, hchk⟩, ?_⟩, hname⟩
    · exact (specRegions_mem_existing M gtn filters m [] [] ex e).mpr
        ⟨heEx, fun p hp fn hfn hM hEq => hnomatch ⟨p, hp, fn, hfn, hM, by rw [hEq, hname]⟩⟩
    · rcases filters with _ | ⟨g, gs⟩
      · simp
      · have hMn := hfilt (by simp)
        rw [hname]
        simpa using hMn

/-- C3 witness: with a trivially-true ownership check and empty filters, an
existing record matched by no desired record is deleted. -/
theorem createDeploymentPlan_functionsToDelete_iff_witness :
    "g" ∈ ({ regionalDeployments := [], functionsToDelete := ["g"],
             schedulesToDelete := [] } : DeploymentPlan).functionsToDelete :=
  (createDeploymentPlan_functionsToDelete_iff (fun _ _ => true) (fun _ => true)
      (fun n => n) ([] : List (List String)) ([] : RegionMap) [{ name := "g" }]
      { regionalDeployments := [], functionsToDelete := ["g"], schedulesToDelete := [] }
      rfl "g").mpr (by decide)

/-! ## C5: deletions never overlap creates or updates -/

section DisjointInvariant

variable (M : String → List (List String) → Bool)
variable (gtn : String → String)
variable (filters : List (List String))

theorem specStep_disjoint (fn : CloudFunctionTrigger) (rd : RegionalDeployment)
    (sdel : List String) (ex : List CloudFunctionTrigger)
    (hc : ∀ g ∈ rd.functionsToCreate, ∀ e ∈ ex, e.name ≠ g.name)
    (hu : ∀ g ∈ rd.functionsToUpdate, ∀ e ∈ ex, e.name ≠ g.name) :
    (∀ g ∈ (specStep M gtn filters fn rd sdel ex).1.functionsToCreate,
       ∀ e ∈ (specStep M gtn filters fn rd sdel ex).2.2, e.name ≠ g.name)
    ∧ (∀ g ∈ (specStep M gtn filters fn rd sdel ex).1.functionsToUpdate,
       ∀ e ∈ (specStep M gtn filters fn rd sdel ex).2.2, e.name ≠ g.name) := by
  constructor
  · intro g hg e he
    have heEx : e ∈ ex := specStep_existing_subset M gtn filters fn rd sdel ex e he
    rw [specStep_create_eq] at hg
    rcases List.mem_append.mp hg with hgOld | hgNew
    · exact hc g hgOld e heEx
    · by_cases hcond : M fn.name filters = true
        ∧ ex.find? (fun exFn => exFn.name == fn.name) = none
      · rw [if_pos hcond] at hgNew
        have hg' : g = pushedFn gtn fn := by simpa using hgNew
        subst hg'
        rw [pushedFn_name]
        exact fun hEq => (List.find?_eq_none.mp hcond.2 e heEx) (by simp [hEq])
      · rw [if_neg hcond] at hgNew
        exact absurd hgNew (List.not_mem_nil g)
  · intro g hg e he
    rw [specStep_update_eq] at hg
    rcases List.mem_append.mp hg with hgOld | hgNew
    · exact hu g hgOld e (specStep_existing_subset M gtn filters fn rd sdel ex e he)
    · by_cases hcond : M fn.name filters = true
        ∧ (ex.find? (fun exFn => exFn.name == fn.name)).isSome
      · rw [if_pos hcond] at hgNew
        have hg' : g = pushedFn gtn fn := by simpa using hgNew
        subst hg'
        rw [pushedFn_name]
        rw [specStep_existing_eq, if_pos hcond.1] at he
        have hne := (List.mem_filter.mp he).2
        intro hEq
        simp [hEq] at hne
      · rw [if_neg hcond] at hgNew
        exact absurd hgNew (List.not_mem_nil g)

theorem specFns_disjoint (fns : List CloudFunctionTrigger) :
    ∀ (rd : RegionalDeployment) (sdel : List String) (ex : List CloudFunctionTrigger),
      (∀ g ∈ rd.functionsToCreate, ∀ e ∈ ex, e.name ≠ g.name) →
      (∀ g ∈ rd.functionsToUpdate, ∀ e ∈ ex, e.name ≠ g.name) →
      (∀ g ∈ (specFns M gtn filters fns rd sdel ex).1.functionsToCreate,
         ∀ e ∈ (specFns M gtn filters fns rd sdel ex).2.2, e.name ≠ g.name)
      ∧ (∀ g ∈ (specFns M gtn filters fns rd sdel ex).1.functionsToUpdate,
         ∀ e ∈ (specFns M gtn filters fns rd sdel ex).2.2, e.name ≠ g.name) := by
  induction fns with
  | nil =>
    intro rd sdel ex hc hu
    exact ⟨hc, hu⟩
  | cons fn rest ih =>
    intro rd sdel ex hc hu
    obtain ⟨hc', hu'⟩ := specStep_disjoint M gtn filters fn rd sdel ex hc hu
    simp only [specFns]
    exact ih _ _ _ hc' hu'

theorem specRegions_disjoint (m : RegionMap) :
    ∀ (plans : List RegionalDeployment) (sdel : List String) (ex : List CloudFunctionTrigger),
      (∀ rd ∈ plans,
        (∀ g ∈ rd.functionsToCreate, ∀ e ∈ ex, e.name ≠ g.name)
        ∧ (∀ g ∈ rd.functionsToUpdate, ∀ e ∈ ex, e.name ≠ g.name)) →
      ∀ rd ∈ (specRegions M gtn filters m plans sdel ex).1,
        (∀ g ∈ rd.functionsToCreate,
           ∀ e ∈ (specRegions M gtn filters m plans sdel ex).2.2, e.name ≠ g.name)
        ∧ (∀ g ∈ rd.functionsToUpdate,
           ∀ e ∈ (specRegions M gtn filters m plans sdel ex).2.2, e.name ≠ g.name) := by
  induction m with
  | nil =>
    intro plans sdel ex hp rd hrd
    exact hp rd hrd
  | cons p rest ih =>
    obtain ⟨region, fns⟩ := p
    intro plans sdel ex hp
    simp only [specRegions]
    apply ih
    intro rd hrd
    rcases List.mem_append.mp hrd with hOld | hNew
    · have h1 := hp rd hOld
      exact ⟨fun g hg e he =>
          h1.1 g hg e (specFns_existing_subset M gtn filters fns _ _ _ e he),
        fun g hg e he =>
          h1.2 g hg e (specFns_existing_subset M gtn filters fns _ _ _ e he)⟩
    · have hrdEq : rd
          = (specFns M gtn filters fns (emptyRegionalDeployment region) sdel ex).1 := by
        simpa using hNew
      subst hrdEq
      exact specFns_disjoint M gtn filters fns _ _ _
        (by simp [emptyRegionalDeployment]) (by simp [emptyRegionalDeployment])

end DisjointInvariant

/-- C5: no name in the plan's functionsToDelete also names a record in any
region's functionsToCreate or functionsToUpdate list. -/
theorem createDeploymentPlan_delete_create_update_disjoint
    (M : String → List (List String) → Bool) (chk : List (String × String) → Bool)
    (gtn : String → String) (filters : List (List String))
    (m : RegionMap) (ex : List CloudFunctionTrigger) (plan : DeploymentPlan)
    (h : createDeploymentPlan M chk gtn filters m ex = Except.ok plan) :
    ∀ n ∈ plan.functionsToDelete, ∀ rd ∈ plan.regionalDeployments,
      (∀ g ∈ rd.functionsToCreate, g.name ≠ n)
      ∧ (∀ g ∈ rd.functionsToUpdate, g.name ≠ n) := by
  obtain ⟨hplan, -⟩ := createDeploymentPlan_ok_elim M chk gtn filters m ex plan h
  subst hplan
  intro n hn rd hrd
  simp only [specPlan, List.mem_map, List.mem_filter] at hn
  obtain ⟨e, ⟨⟨heRem, -⟩, -⟩, hname⟩ := hn
  simp only [specPlan] at hrd
  have hdisj := specRegions_disjoint M gtn filters m [] [] ex (by simp) rd hrd
  exact ⟨fun g hg hEq => hdisj.1 g hg e heRem (by rw [hname, hEq]),
    fun g hg hEq => hdisj.2 g hg e heRem (by rw [hname, hEq])⟩

/-- C5 witness: in a plan that both creates the function x and deletes the
orphaned function g, the created record's name differs from the deleted
name. -/
theorem createDeploymentPlan_delete_create_update_disjoint_witness :
    ({ name := "x" } : CloudFunctionTrigger).name ≠ "g" :=
  (createDeploymentPlan_delete_create_update_disjoint (fun _ _ => true) (fun _ => true)
    (fun n => n) ([] : List (List String)) [("r", [{ name := "x" }])] [{ name := "g" }]
    { regionalDeployments := [{ region := "r", functionsToCreate := [{ name := "x" }] }],
      functionsToDelete := ["g"], schedulesToDelete := [] } rfl
    "g" (List.mem_cons_self _ _)
    { region := "r", functionsToCreate := [{ name := "x" }] }
    (List.mem_cons_self _ _)).1 { name := "x" } (List.mem_cons_self _ _)

/-! ## C8: functions absent from the backend are created, never updated -/

section AbsentCreates

variable (M : String → List (List String) → Bool)
variable (gtn : String → String)
variable (filters : List (List String))

theorem specFns_create_of_absent (fns : List CloudFunctionTrigger) :
    ∀ (rd : RegionalDeployment) (sdel : List String) (ex : List CloudFunctionTrigger),
      ∀ fn0 ∈ fns, M fn0.name filters = true →
      (∀ e ∈ ex, e.name ≠ fn0.name) →
      ∃ g ∈ (specFns M gtn filters fns rd sdel ex).1.functionsToCreate,
        g.name = fn0.name := by
  induction fns with
  | nil => intro rd sdel ex fn0 h0; simp at h0
  | cons fn rest ih =>
    intro rd sdel ex fn0 h0 hM habs
    rcases List.mem_cons.mp h0 with hEq | hMem
    · subst hEq
      have hfind : ex.find? (fun exFn => exFn.name == fn0.name) = none :=
        List.find?_eq_none.mpr (fun e he => by simpa using habs e he)
      have hcre : (specStep M gtn filters fn0 rd sdel ex).1.functionsToCreate
          = rd.functionsToCreate ++ [pushedFn gtn fn0] := by
        rw [specStep_create_eq, if_pos ⟨hM, hfind⟩]
      simp only [specFns]
      refine ⟨pushedFn gtn fn0, ?_, pushedFn_name gtn fn0⟩
      apply specFns_create_mono M gtn filters rest
      rw [hcre]
      exact List.mem_append_right _ (List.mem_cons_self _ _)
    · simp only [specFns]
      apply ih _ _ _ fn0 hMem hM
      intro e he
      exact habs e (specStep_existing_subset M gtn filters fn rd sdel ex e he)

theorem specRegions_create_of_absent (m : RegionMap) :
    ∀ (plans : List RegionalDeployment) (sdel : List String) (ex : List CloudFunctionTrigger),
      ∀ p ∈ m, ∀ fn0 ∈ p.2, M fn0.name filters = true →
      (∀ e ∈ ex, e.name ≠ fn0.name) →
      ∃ rd ∈ (specRegions M gtn filters m plans sdel ex).1,
        rd.region = p.1 ∧ ∃ g ∈ rd.functionsToCreate, g.name = fn0.name := by
  induction m with
  | nil => intro plans sdel ex p hp; simp at hp
  | cons q rest ih =>
    obtain ⟨region, fns⟩ := q
    intro plans sdel ex p hp fn0 h0 hM habs
    rcases List.mem_cons.mp hp with hEq | hMem
    · subst hEq
      simp only [specRegions]
      refine ⟨(specFns M gtn filters fns (emptyRegionalDeployment region) sdel ex).1,
        ?_, ?_, ?_⟩
      · exact specRegions_plans_mono M gtn filters rest _ _ _ _
          (List.mem_append_right _ (List.mem_cons_self _ _))
      · rw [specFns_region]
        rfl
      · exact specFns_create_of_absent M gtn filters fns
          (emptyRegionalDeployment region) sdel ex fn0 h0 hM habs
    · simp only [specRegions]
      apply ih _ _ _ p hMem fn0 h0 hM
      intro e he
      exact habs e (specFns_existing_subset M gtn filters fns _ _ _ e he)

theorem specFns_update_names (fns : List CloudFunctionTrigger) :
    ∀ (rd : RegionalDeployment) (sdel : List String) (ex EX0 : List CloudFunctionTrigger),
      (∀ e ∈ ex, e ∈ EX0) →
      (∀ g ∈ rd.functionsToUpdate, ∃ e ∈ EX0, e.name = g.name) →
      ∀ g ∈ (specFns M gtn filters fns rd sdel ex).1.functionsToUpdate,
        ∃ e ∈ EX0, e.name = g.name := by
  induction fns with
  | nil => intro rd sdel ex EX0 hsub hupd g hg; exact hupd g hg
  | cons fn rest ih =>
    intro rd sdel ex EX0 hsub hupd
    simp only [specFns]
    apply ih _ _ _ EX0
    · intro e he
      exact hsub e (specStep_existing_subset M gtn filters fn rd sdel ex e he)
    · intro g hg
      rw [specStep_update_eq] at hg
      rcases List.mem_append.mp hg with hgOld | hgNew
      · exact hupd g hgOld
      · by_cases hcond : M fn.name filters = true
          ∧ (ex.find? (fun exFn => exFn.name == fn.name)).isSome
        · rw [if_pos hcond] at hgNew
          have hg' : g = pushedFn gtn fn := by simpa using hgNew
          subst hg'
          obtain ⟨mf, hmf⟩ := Option.isSome_iff_exists.mp hcond.2
          have hmfEx : mf ∈ ex := List.mem_of_find?_eq_some hmf
          have hmfName : mf.name = fn.name := by simpa using List.find?_some hmf
          exact ⟨mf, hsub mf hmfEx, by rw [hmfName, pushedFn_name]⟩
        · rw [if_neg hcond] at hgNew
          exact absurd hgNew (List.not_mem_nil g)

theorem specRegions_update_names (m : RegionMap) :
    ∀ (plans : List RegionalDeployment) (sdel : List String)
      (ex EX0 : List CloudFunctionTrigger),
      (∀ e ∈ ex, e ∈ EX0) →
      (∀ rd ∈ plans, ∀ g ∈ rd.functionsToUpdate, ∃ e ∈ EX0, e.name = g.name) →
      ∀ rd ∈ (specRegions M gtn filters m plans sdel ex).1,
        ∀ g ∈ rd.functionsToUpdate, ∃ e ∈ EX0, e.name = g.name := by
  induction m with
  | nil => intro plans sdel ex EX0 hsub hpl rd hrd; exact hpl rd hrd
  | cons q rest ih =>
    obtain ⟨region, fns⟩ := q
    intro plans sdel ex EX0 hsub hpl
    simp only [specRegions]
    apply ih _ _ _ EX0
    · intro e he
      exact hsub e (specFns_existing_subset M gtn filters fns _ _ _ e he)
    · intro rd hrd
      rcases List.mem_append.mp hrd with hOld | hNew
      · exact hpl rd hOld
      · have hrdEq : rd
            = (specFns M gtn filters fns (emptyRegionalDeployment region) sdel ex).1 := by
          simpa using hNew
        subst hrdEq
        exact specFns_update_names M gtn filters fns
          (emptyRegionalDeployment region) sdel ex EX0 hsub
          (by simp [emptyRegionalDeployment])

end AbsentCreates

/-- C8 (amended): a filter-selected desired function whose name equals no
existing record's name contributes a record of that name to its region's
functionsToCreate list and never appears, by name, in any functionsToUpdate
list.  (A desired function the filter rejects is skipped entirely.) -/
theorem createDeploymentPlan_absent_creates
    (M : String → List (List String) → Bool) (chk : List (String × String) → Bool)
    (gtn : String → String) (filters : List (List String))
    (m : RegionMap) (ex : List CloudFunctionTrigger) (plan : DeploymentPlan)
    (h : createDeploymentPlan M chk gtn filters m ex = Except.ok plan) :
    ∀ p ∈ m, ∀ fn ∈ p.2, M fn.name filters = true →
      (∀ e ∈ ex, e.name ≠ fn.name) →
      (∃ rd ∈ plan.regionalDeployments, rd.region = p.1
         ∧ ∃ g ∈ rd.functionsToCreate, g.name = fn.name)
      ∧ ∀ rd ∈ plan.regionalDeployments, ∀ g ∈ rd.functionsToUpdate, g.name ≠ fn.name := by
  obtain ⟨hplan, -⟩ := createDeploymentPlan_ok_elim M chk gtn filters m ex plan h
  subst hplan
  intro p hp fn hfn hM habs
  constructor
  · have hres := specRegions_create_of_absent M gtn filters m [] [] ex p hp fn hfn hM habs
    simpa [specPlan] using hres
  · intro rd hrd g hg hEq
    simp only [specPlan] at hrd
    obtain ⟨e, heEx, heName⟩ := specRegions_update_names M gtn filters m [] [] ex ex
      (fun e he => he) (by simp) rd hrd g hg
    exact habs e heEx (by rw [heName, hEq])

/-- C8 witness: a selected function absent from the backend is created in
its region and updated nowhere. -/
theorem createDeploymentPlan_absent_creates_witness :
    (∃ rd ∈ ({ regionalDeployments := [{ region := "r", functionsToCreate := [{ name := "x" }] }],
               functionsToDelete := [], schedulesToDelete := [] }
                : DeploymentPlan).regionalDeployments,
      rd.region = ("r", [({ name := "x" } : CloudFunctionTrigger)]).1
        ∧ ∃ g ∈ rd.functionsToCreate, g.name = ({ name := "x" } : CloudFunctionTrigger).name)
    ∧ ∀ rd ∈ ({ regionalDeployments := [{ region := "r", functionsToCreate := [{ name := "x" }] }],
                functionsToDelete := [], schedulesToDelete := [] }
                 : DeploymentPlan).regionalDeployments,
        ∀ g ∈ rd.functionsToUpdate, g.name ≠ ({ name := "x" } : CloudFunctionTrigger).name :=
  createDeploymentPlan_absent_creates (fun _ _ => true) (fun _ => true) (fun n => n)
    ([] : List (List String)) [("r", [{ name := "x" }])] ([] : List CloudFunctionTrigger)
    { regionalDeployments := [{ region := "r", functionsToCreate := [{ name := "x" }] }],
      functionsToDelete := [], schedulesToDelete := [] } rfl
    ("r", [{ name := "x" }]) (List.mem_cons_self _ _) { name := "x" }
    (List.mem_cons_self _ _) rfl (by simp)

/-- C8 counterexample: the claim as stated omits the filter check.  This
desired function's name equals no existing record's name, yet it is not
appended to functionsToCreate because the filter rejects it. -/
theorem createDeploymentPlan_absent_creates_cex :
    createDeploymentPlan (fun _ _ => false) (fun _ => true) (fun n => n) [["z"]]
        [("r", [{ name := "x" }])] ([] : List CloudFunctionTrigger)
      = Except.ok { regionalDeployments := [{ region := "r" }],
                    functionsToDelete := [], schedulesToDelete := [] }
    ∧ (∀ e ∈ ([] : List CloudFunctionTrigger),
        e.name ≠ ({ name := "x" } : CloudFunctionTrigger).name)
    ∧ ¬ (∃ rd ∈ ({ regionalDeployments := [{ region := "r" }],
                   functionsToDelete := [], schedulesToDelete := [] }
                    : DeploymentPlan).regionalDeployments,
          ∃ g ∈ rd.functionsToCreate, g.name = "x") := by
  refine ⟨rfl, by simp, by decide⟩

/-! ## C4: scheduled functions are rewritten and enqueued as schedules -/

section ScheduleRewrite

variable (M : String → List (List String) → Bool)
variable (gtn : String → String)
variable (filters : List (List String))

theorem specFns_sched_mem (fns : List CloudFunctionTrigger) :
    ∀ (rd : RegionalDeployment) (sdel : List String) (ex : List CloudFunctionTrigger),
      ∀ fn0 ∈ fns, M fn0.name filters = true → fn0.schedule.isSome = true →
      rewriteResource gtn fn0
        ∈ (specFns M gtn filters fns rd sdel ex).1.schedulesToCreateOrUpdate := by
  induction fns with
  | nil => intro rd sdel ex fn0 h0; simp at h0
  | cons fn rest ih =>
    intro rd sdel ex fn0 h0 hM hsome
    rcases List.mem_cons.mp h0 with hEq | hMem
    · subst hEq
      have hsch : (specStep M gtn filters fn0 rd sdel ex).1.schedulesToCreateOrUpdate
          = rd.schedulesToCreateOrUpdate ++ [rewriteResource gtn fn0] := by
        rw [specStep_scheds_eq, if_pos ⟨hM, hsome⟩]
      simp only [specFns]
      apply specFns_scheds_mono M gtn filters rest
      rw [hsch]
      exact List.mem_append_right _ (List.mem_cons_self _ _)
    · simp only [specFns]
      exact ih _ _ _ fn0 hMem hM hsome

theorem specRegions_sched_mem (m : RegionMap) :
    ∀ (plans : List RegionalDeployment) (sdel : List String) (ex : List CloudFunctionTrigger),
      ∀ p ∈ m, ∀ fn0 ∈ p.2, M fn0.name filters = true → fn0.schedule.isSome = true →
      ∃ rd ∈ (specRegions M gtn filters m plans sdel ex).1,
        rd.region = p.1 ∧ rewriteResource gtn fn0 ∈ rd.schedulesToCreateOrUpdate := by
  induction m with
  | nil => intro plans sdel ex p hp; simp at hp
  | cons q rest ih =>
    obtain ⟨region, fns⟩ := q
    intro plans sdel ex p hp fn0 h0 hM hsome
    rcases List.mem_cons.mp hp with hEq | hMem
    · subst hEq
      simp only [specRegions]
      refine ⟨(specFns M gtn filters fns (emptyRegionalDeployment region) sdel ex).1,
        ?_, ?_, ?_⟩
      · exact specRegions_plans_mono M gtn filters rest _ _ _ _
          (List.mem_append_right _ (List.mem_cons_self _ _))
      · rw [specFns_region]
        rfl
      · exact specFns_sched_mem M gtn filters fns
          (emptyRegionalDeployment region) sdel ex fn0 h0 hM hsome
    · simp only [specRegions]
      exact ih _ _ _ p hMem fn0 h0 hM hsome

theorem pushedFn_resource (fn : CloudFunctionTrigger)
    (hok : throwsOn M filters fn = false) (hM : M fn.name filters = true)
    (hsched : (pushedFn gtn fn).schedule.isSome = true) :
    (pushedFn gtn fn).eventTrigger.bind EventTrigger.resource
      = some (gtn (pushedFn gtn fn).name) := by
  have hs : fn.schedule.isSome = true := by
    rw [← pushedFn_schedule gtn fn]
    exact hsched
  obtain ⟨et, he⟩ : ∃ et, fn.eventTrigger = some et := by
    rcases he : fn.eventTrigger with _ | et
    · exfalso
      rw [throwsOn] at hok
      simp [hM, hs, he] at hok
    · exact ⟨et, rfl⟩
  have hp : pushedFn gtn fn = rewriteResource gtn fn := by
    simp [pushedFn, hs]
  rw [hp, rewriteResource_name]
  exact rewriteResource_resource gtn fn et he

theorem specFns_cu_resource (fns : List CloudFunctionTrigger)
    (hok : ∀ fn ∈ fns, throwsOn M filters fn = false) :
    ∀ (rd : RegionalDeployment) (sdel : List String) (ex : List CloudFunctionTrigger),
      (∀ g, (g ∈ rd.functionsToCreate ∨ g ∈ rd.functionsToUpdate) →
        g.schedule.isSome = true →
        g.eventTrigger.bind EventTrigger.resource = some (gtn g.name)) →
      ∀ g, (g ∈ (specFns M gtn filters fns rd sdel ex).1.functionsToCreate
          ∨ g ∈ (specFns M gtn filters fns rd sdel ex).1.functionsToUpdate) →
        g.schedule.isSome = true →
        g.eventTrigger.bind EventTrigger.resource = some (gtn g.name) := by
  induction fns with
  | nil => intro rd sdel ex hinv g hg; exact hinv g hg
  | cons fn rest ih =>
    intro rd sdel ex hinv
    simp only [specFns]
    apply ih (fun f hf => hok f (List.mem_cons_of_mem fn hf)) _ _ _
    intro g hg hsched
    have hokfn := hok fn (List.mem_cons_self fn rest)
    rcases hg with hgc | hgu
    · rw [specStep_create_eq] at hgc
      rcases List.mem_append.mp hgc with hgOld | hgNew
      · exact hinv g (Or.inl hgOld) hsched
      · by_cases hcond : M fn.name filters = true
          ∧ ex.find? (fun exFn => exFn.name == fn.name) = none
        · rw [if_pos hcond] at hgNew
          have hg' : g = pushedFn gtn fn := by simpa using hgNew
          subst hg'
          exact pushedFn_resource M gtn filters fn hokfn hcond.1 hsched
        · rw [if_neg hcond] at hgNew
          exact absurd hgNew (List.not_mem_nil g)
    · rw [specStep_update_eq] at hgu
      rcases List.mem_append.mp hgu with hgOld | hgNew
      · exact hinv g (Or.inr hgOld) hsched
      · by_cases hcond : M fn.name filters = true
          ∧ (ex.find? (fun exFn => exFn.name == fn.name)).isSome
        · rw [if_pos hcond] at hgNew
          have hg' : g = pushedFn gtn fn := by simpa using hgNew
          subst hg'
          exact pushedFn_resource M gtn filters fn hokfn hcond.1 hsched
        · rw [if_neg hcond] at hgNew
          exact absurd hgNew (List.not_mem_nil g)

theorem specRegions_cu_resource (m : RegionMap)
    (hok : ∀ p ∈ m, ∀ fn ∈ p.2, throwsOn M filters fn = false) :
    ∀ (plans : List RegionalDeployment) (sdel : List String)
      (ex : List CloudFunctionTrigger),
      (∀ rd ∈ plans, ∀ g, (g ∈ rd.functionsToCreate ∨ g ∈ rd.functionsToUpdate) →
        g.schedule.isSome = true →
        g.eventTrigger.bind EventTrigger.resource = some (gtn g.name)) →
      ∀ rd ∈ (specRegions M gtn filters m plans sdel ex).1,
        ∀ g, (g ∈ rd.functionsToCreate ∨ g ∈ rd.functionsToUpdate) →
        g.schedule.isSome = true →
        g.eventTrigger.bind EventTrigger.resource = some (gtn g.name) := by
  induction m with
  | nil => intro plans sdel ex hpl rd hrd; exact hpl rd hrd
  | cons q rest ih =>
    obtain ⟨region, fns⟩ := q
    intro plans sdel ex hpl
    simp only [specRegions]
    apply ih (fun p hp fn hfn => hok p (List.mem_cons_of_mem (region, fns) hp) fn hfn) _ _ _
    intro rd hrd
    rcases List.mem_append.mp hrd with hOld | hNew
    · exact hpl rd hOld
    · have hrdEq : rd
          = (specFns M gtn filters fns (emptyRegionalDeployment region) sdel ex).1 := by
        simpa using hNew
      subst hrdEq
      exact specFns_cu_resource M gtn filters fns
        (fun fn hfn => hok (region, fns) (List.mem_cons_self _ rest) fn hfn)
        (emptyRegionalDeployment region) sdel ex
        (by simp [emptyRegionalDeployment])

end ScheduleRewrite

/-- C4 (amended): every filter-selected desired function with a schedule has
the rewritten record — its eventTrigger.resource set to the injected
topic-name deriver's output for its name — appended to its region's
schedulesToCreateOrUpdate, and every scheduled record found in any create or
update list carries that rewrite.  (A scheduled function the filter rejects
is skipped entirely and appears nowhere.) -/
theorem createDeploymentPlan_schedule_rewrite
    (M : String → List (List String) → Bool) (chk : List (String × String) → Bool)
    (gtn : String → String) (filters : List (List String))
    (m : RegionMap) (ex : List CloudFunctionTrigger) (plan : DeploymentPlan)
    (h : createDeploymentPlan M chk gtn filters m ex = Except.ok plan) :
    (∀ p ∈ m, ∀ fn ∈ p.2, M fn.name filters = true → fn.schedule.isSome = true →
      ∃ rd ∈ plan.regionalDeployments, rd.region = p.1
        ∧ rewriteResource gtn fn ∈ rd.schedulesToCreateOrUpdate)
    ∧ ∀ rd ∈ plan.regionalDeployments, ∀ g,
        (g ∈ rd.functionsToCreate ∨ g ∈ rd.functionsToUpdate) →
        g.schedule.isSome = true →
        g.eventTrigger.bind EventTrigger.resource = some (gtn g.name) := by
  obtain ⟨hplan, hok⟩ := createDeploymentPlan_ok_elim M chk gtn filters m ex plan h
  subst hplan
  constructor
  · intro p hp fn hfn hM hsome
    have hres := specRegions_sched_mem M gtn filters m [] [] ex p hp fn hfn hM hsome
    simpa [specPlan] using hres
  · intro rd hrd
    simp only [specPlan] at hrd
    exact specRegions_cu_resource M gtn filters m hok [] [] ex (by simp) rd hrd

/-- Sample inputs for the schedule-rewrite scenario: one selected scheduled
function, no existing functions. -/
def scheduledSample : CloudFunctionTrigger :=
  { name := "s", schedule := some {}, eventTrigger := some {} }

/-- The record the planner enqueues for scheduledSample under the identity
topic-name deriver. -/
def scheduledSampleRewritten : CloudFunctionTrigger :=
  { name := "s", schedule := some {},
    eventTrigger := some { resource := some "s" } }

/-- The plan the planner produces for scheduledSample. -/
def scheduledSamplePlan : DeploymentPlan :=
  { regionalDeployments :=
      [{ region := "r",
         functionsToCreate := [scheduledSampleRewritten],
         schedulesToCreateOrUpdate := [scheduledSampleRewritten] }],
    functionsToDelete := [],
    schedulesToDelete := [] }

/-- A plan with one empty regional deployment for region r. -/
def emptyPlanR : DeploymentPlan :=
  { regionalDeployments := [{ region := "r" }],
    functionsToDelete := [],
    schedulesToDelete := [] }

/-- C4 witness: a selected scheduled function lands, rewritten, in its
region's schedule list, and every scheduled create or update record carries
the rewrite. -/
theorem createDeploymentPlan_schedule_rewrite_witness :
    (∀ p ∈ ([("r", [scheduledSample])] : RegionMap), ∀ fn ∈ p.2,
      (fun (_ : String) (_ : List (List String)) => true) fn.name
          ([] : List (List String)) = true →
      fn.schedule.isSome = true →
      ∃ rd ∈ scheduledSamplePlan.regionalDeployments,
        rd.region = p.1 ∧ rewriteResource (fun n => n) fn ∈ rd.schedulesToCreateOrUpdate)
    ∧ ∀ rd ∈ scheduledSamplePlan.regionalDeployments,
        ∀ g, (g ∈ rd.functionsToCreate ∨ g ∈ rd.functionsToUpdate) →
          g.schedule.isSome = true →
          g.eventTrigger.bind EventTrigger.resource = some ((fun n => n) g.name) :=
  createDeploymentPlan_schedule_rewrite (fun _ _ => true) (fun _ => true) (fun n => n)
    ([] : List (List String)) [("r", [scheduledSample])] ([] : List CloudFunctionTrigger)
    scheduledSamplePlan rfl

/-- C4 counterexample: the claim as stated omits the filter check.  This
desired function has a schedule, but the filter rejects it and it is
appended to no schedulesToCreateOrUpdate list (and no rewrite happens). -/
theorem createDeploymentPlan_schedule_rewrite_cex :
    createDeploymentPlan (fun _ _ => false) (fun _ => true) (fun n => n) [["z"]]
        [("r", [scheduledSample])] ([] : List CloudFunctionTrigger)
      = Except.ok emptyPlanR
    ∧ scheduledSample.schedule.isSome = true
    ∧ ¬ (∃ rd ∈ emptyPlanR.regionalDeployments,
          rd.region = "r"
            ∧ rewriteResource (fun n => n) scheduledSample
              ∈ rd.schedulesToCreateOrUpdate) := by
  refine ⟨rfl, rfl, by decide⟩

/-! ## C6: schedulesToDelete never overlaps schedulesToCreateOrUpdate -/

section ScheduleDisjoint

variable (M : String → List (List String) → Bool)
variable (gtn : String → String)
variable (filters : List (List String))

theorem specFns_sdel_source (fns : List CloudFunctionTrigger) :
    ∀ (rd : RegionalDeployment) (sdel : List String) (ex : List CloudFunctionTrigger),
      ∀ n ∈ (specFns M gtn filters fns rd sdel ex).2.1,
        n ∈ sdel
        ∨ ∃ fn ∈ fns, M fn.name filters = true ∧ fn.schedule = none ∧ fn.name = n := by
  induction fns with
  | nil => intro rd sdel ex n hn; exact Or.inl hn
  | cons fn rest ih =>
    intro rd sdel ex n hn
    simp only [specFns] at hn
    rcases ih _ _ _ n hn with hOld | ⟨f, hf, hMf, hsf, hnf⟩
    · rw [specStep_sdel_eq] at hOld
      rcases List.mem_append.mp hOld with hsdel | hNew
      · exact Or.inl hsdel
      · by_cases hcond : M fn.name filters = true ∧ fn.schedule = none
        · rw [if_pos hcond] at hNew
          rcases hm : ex.find? (fun exFn => exFn.name == fn.name) with _ | mf
          · rw [hm] at hNew
            exact absurd hNew (List.not_mem_nil n)
          · rw [hm] at hNew
            have hNew' : n ∈ (if lookupLabel mf.labels "deployment-scheduled" == some "true"
                then [mf.name] else []) := hNew
            by_cases hlab : (lookupLabel mf.labels "deployment-scheduled" == some "true") = true
            · rw [if_pos hlab] at hNew'
              have hn' : n = mf.name := by simpa using hNew'
              have hmfName : mf.name = fn.name := by simpa using List.find?_some hm
              refine Or.inr ⟨fn, List.mem_cons_self fn rest, hcond.1, hcond.2, ?_⟩
              rw [hn', hmfName]
            · rw [if_neg hlab] at hNew'
              exact absurd hNew' (List.not_mem_nil n)
        · rw [if_neg hcond] at hNew
          exact absurd hNew (List.not_mem_nil n)
    · exact Or.inr ⟨f, List.mem_cons_of_mem fn hf, hMf, hsf, hnf⟩

theorem specRegions_sdel_source (m : RegionMap) :
    ∀ (plans : List RegionalDeployment) (sdel : List String) (ex : List CloudFunctionTrigger),
      ∀ n ∈ (specRegions M gtn filters m plans sdel ex).2.1,
        n ∈ sdel
        ∨ ∃ p ∈ m, ∃ fn ∈ p.2,
            M fn.name filters = true ∧ fn.schedule = none ∧ fn.name = n := by
  induction m with
  | nil => intro plans sdel ex n hn; exact Or.inl hn
  | cons q rest ih =>
    obtain ⟨region, fns⟩ := q
    intro plans sdel ex n hn
    simp only [specRegions] at hn
    rcases ih _ _ _ n hn with hOut | ⟨p, hp, f, hf, hMf, hsf, hnf⟩
    · rcases specFns_sdel_source M gtn filters fns _ _ _ n hOut with hsdel | ⟨f, hf, hMf, hsf, hnf⟩
      · exact Or.inl hsdel
      · exact Or.inr ⟨(region, fns), List.mem_cons_self _ _, f, hf, hMf, hsf, hnf⟩
    · exact Or.inr ⟨p, List.mem_cons_of_mem _ hp, f, hf, hMf, hsf, hnf⟩

theorem specFns_scheds_source (fns : List CloudFunctionTrigger) :
    ∀ (rd : RegionalDeployment) (sdel : List String) (ex : List CloudFunctionTrigger),
      ∀ g ∈ (specFns M gtn filters fns rd sdel ex).1.schedulesToCreateOrUpdate,
        g ∈ rd.schedulesToCreateOrUpdate
        ∨ ∃ fn ∈ fns, M fn.name filters = true ∧ fn.schedule.isSome = true
            ∧ g.name = fn.name := by
  induction fns with
  | nil => intro rd sdel ex g hg; exact Or.inl hg
  | cons fn rest ih =>
    intro rd sdel ex g hg
    simp only [specFns] at hg
    rcases ih _ _ _ g hg with hOld | ⟨f, hf, hMf, hsf, hgf⟩
    · rw [specStep_scheds_eq] at hOld
      rcases List.mem_append.mp hOld with h1 | hNew
      · exact Or.inl h1
      · by_cases hcond : M fn.name filters = true ∧ fn.schedule.isSome = true
        · rw [if_pos hcond] at hNew
          have hg' : g = rewriteResource gtn fn := by simpa using hNew
          refine Or.inr ⟨fn, List.mem_cons_self fn rest, hcond.1, hcond.2, ?_⟩
          rw [hg', rewriteResource_name]
        · rw [if_neg hcond] at hNew
          exact absurd hNew (List.not_mem_nil g)
    · exact Or.inr ⟨f, List.mem_cons_of_mem fn hf, hMf, hsf, hgf⟩

theorem specRegions_scheds_source (m : RegionMap) :
    ∀ (plans : List RegionalDeployment) (sdel : List String) (ex : List CloudFunctionTrigger),
      ∀ rd ∈ (specRegions M gtn filters m plans sdel ex).1,
        ∀ g ∈ rd.schedulesToCreateOrUpdate,
        (∃ rd0 ∈ plans, g ∈ rd0.schedulesToCreateOrUpdate)
        ∨ ∃ p ∈ m, ∃ fn ∈ p.2, M fn.name filters = true ∧ fn.schedule.isSome = true
            ∧ g.name = fn.name := by
  induction m with
  | nil => intro plans sdel ex rd hrd g hg; exact Or.inl ⟨rd, hrd, hg⟩
  | cons q rest ih =>
    obtain ⟨region, fns⟩ := q
    intro plans sdel ex rd hrd g hg
    simp only [specRegions] at hrd
    rcases ih _ _ _ rd hrd g hg with ⟨rd0, hrd0, hg0⟩ | ⟨p, hp, f, hf, hMf, hsf, hgf⟩
    · rcases List.mem_append.mp hrd0 with hOld | hNew
      · exact Or.inl ⟨rd0, hOld, hg0⟩
      · have hrdEq : rd0
            = (specFns M gtn filters fns (emptyRegionalDeployment region) sdel ex).1 := by
          simpa using hNew
        subst hrdEq
        rcases specFns_scheds_source M gtn filters fns _ _ _ g hg0 with hEmpty | ⟨f, hf, hMf, hsf, hgf⟩
        · simp [emptyRegionalDeployment] at hEmpty
        · exact Or.inr ⟨(region, fns), List.mem_cons_self _ _, f, hf, hMf, hsf, hgf⟩
    · exact Or.inr ⟨p, List.mem_cons_of_mem _ hp, f, hf, hMf, hsf, hgf⟩

theorem specFns_sched_link (fns : List CloudFunctionTrigger) :
    ∀ (rd : RegionalDeployment) (sdel : List String) (ex : List CloudFunctionTrigger),
      (∀ g ∈ rd.schedulesToCreateOrUpdate, ∃ gc,
        (gc ∈ rd.functionsToCreate ∨ gc ∈ rd.functionsToUpdate) ∧ gc.name = g.name) →
      ∀ g ∈ (specFns M gtn filters fns rd sdel ex).1.schedulesToCreateOrUpdate, ∃ gc,
        (gc ∈ (specFns M gtn filters fns rd sdel ex).1.functionsToCreate
          ∨ gc ∈ (specFns M gtn filters fns rd sdel ex).1.functionsToUpdate)
        ∧ gc.name = g.name := by
  induction fns with
  | nil => intro rd sdel ex hlink g hg; exact hlink g hg
  | cons fn rest ih =>
    intro rd sdel ex hlink
    simp only [specFns]
    apply ih
    intro g hg
    rw [specStep_scheds_eq] at hg
    rcases List.mem_append.mp hg with hOld | hNew
    · obtain ⟨gc, hgc, hname⟩ := hlink g hOld
      refine ⟨gc, ?_, hname⟩
      rcases hgc with h1 | h2
      · left
        obtain ⟨l, hl⟩ := specStep_create_suffix M gtn filters fn rd sdel ex
        rw [hl]
        exact List.mem_append_left l h1
      · right
        obtain ⟨l, hl⟩ := specStep_update_suffix M gtn filters fn rd sdel ex
        rw [hl]
        exact List.mem_append_left l h2
    · by_cases hcond : M fn.name filters = true ∧ fn.schedule.isSome = true
      · rw [if_pos hcond] at hNew
        have hg' : g = rewriteResource gtn fn := by simpa using hNew
        subst hg'
        have hpush : pushedFn gtn fn = rewriteResource gtn fn := by
          simp [pushedFn, hcond.2]
        rcases hm : ex.find? (fun exFn => exFn.name == fn.name) with _ | mf
        · refine ⟨pushedFn gtn fn, Or.inl ?_, by rw [hpush]⟩
          rw [specStep_create_eq, if_pos ⟨hcond.1, hm⟩]
          exact List.mem_append_right _ (List.mem_cons_self _ _)
        · refine ⟨pushedFn gtn fn, Or.inr ?_, by rw [hpush]⟩
          rw [specStep_update_eq, if_pos ⟨hcond.1, by rw [hm]; rfl⟩]
          exact List.mem_append_right _ (List.mem_cons_self _ _)
      · rw [if_neg hcond] at hNew
        exact absurd hNew (List.not_mem_nil g)

theorem specRegions_sched_link (m : RegionMap) :
    ∀ (plans : List RegionalDeployment) (sdel : List String) (ex : List CloudFunctionTrigger),
      (∀ rd ∈ plans, ∀ g ∈ rd.schedulesToCreateOrUpdate, ∃ gc,
        (gc ∈ rd.functionsToCreate ∨ gc ∈ rd.functionsToUpdate) ∧ gc.name = g.name) →
      ∀ rd ∈ (specRegions M gtn filters m plans sdel ex).1,
        ∀ g ∈ rd.schedulesToCreateOrUpdate, ∃ gc,
          (gc ∈ rd.functionsToCreate ∨ gc ∈ rd.functionsToUpdate) ∧ gc.name = g.name := by
  induction m with
  | nil => intro plans sdel ex hpl rd hrd; exact hpl rd hrd
  | cons q rest ih =>
    obtain ⟨region, fns⟩ := q
    intro plans sdel ex hpl
    simp only [specRegions]
    apply ih
    intro rd hrd
    rcases List.mem_append.mp hrd with hOld | hNew
    · exact hpl rd hOld
    · have hrdEq : rd
          = (specFns M gtn filters fns (emptyRegionalDeployment region) sdel ex).1 := by
        simpa using hNew
      subst hrdEq
      exact specFns_sched_link M gtn filters fns (emptyRegionalDeployment region) sdel ex
        (by simp [emptyRegionalDeployment])

end ScheduleDisjoint

/-- C6 (amended): provided any two desired records that share a name agree
on whether schedule is set — true in particular for every region map built
by createFunctionsByRegionMap, whose same-named records are copies of one
definition — no name in the plan's schedulesToDelete equals the name of a
record in any region's schedulesToCreateOrUpdate list. -/
theorem createDeploymentPlan_schedules_delete_disjoint
    (M : String → List (List String) → Bool) (chk : List (String × String) → Bool)
    (gtn : String → String) (filters : List (List String))
    (m : RegionMap) (ex : List CloudFunctionTrigger) (plan : DeploymentPlan)
    (hagree : ∀ p ∈ m, ∀ fn ∈ p.2, ∀ q ∈ m, ∀ fn' ∈ q.2,
      fn.name = fn'.name → fn.schedule.isSome = fn'.schedule.isSome)
    (h : createDeploymentPlan M chk gtn filters m ex = Except.ok plan) :
    ∀ n ∈ plan.schedulesToDelete, ∀ rd ∈ plan.regionalDeployments,
      ∀ g ∈ rd.schedulesToCreateOrUpdate, g.name ≠ n := by
  obtain ⟨hplan, -⟩ := createDeploymentPlan_ok_elim M chk gtn filters m ex plan h
  subst hplan
  intro n hn rd hrd g hg hEq
  simp only [specPlan] at hrd
  simp only [specPlan, List.mem_append] at hn
  rcases hn with hn1 | hn2
  · rcases specRegions_sdel_source M gtn filters m [] [] ex n hn1 with hnil |
      ⟨p, hp, fn, hfn, hMf, hsf, hnf⟩
    · simp at hnil
    · rcases specRegions_scheds_source M gtn filters m [] [] ex rd hrd g hg with
        ⟨rd0, hrd0, -⟩ | ⟨q, hq, fn', hfn', hMf', hsf', hgf'⟩
      · simp at hrd0
      · have hnames : fn.name = fn'.name := by
          rw [hnf, ← hEq, hgf']
        have hiso := hagree p hp fn hfn q hq fn' hfn' hnames
        rw [hsf, hsf'] at hiso
        simp at hiso
  · simp only [List.mem_map, List.mem_filter] at hn2
    obtain ⟨e, ⟨⟨⟨heRem, -⟩, -⟩, -⟩, hname⟩ := hn2
    obtain ⟨gc, hgc, hgcname⟩ := specRegions_sched_link M gtn filters m [] [] ex
      (by simp) rd hrd g hg
    have hdisj := specRegions_disjoint M gtn filters m [] [] ex (by simp) rd hrd
    rcases hgc with h1 | h2
    · exact hdisj.1 gc h1 e heRem (by rw [hname, hgcname, hEq])
    · exact hdisj.2 gc h2 e heRem (by rw [hname, hgcname, hEq])

/-- Sample inputs for the C6 scenario: a scheduled function in one region, a
function that dropped its schedule in another, against a backend record that
was scheduled. -/
def schedA : CloudFunctionTrigger :=
  { name := "a", schedule := some {}, eventTrigger := some {} }

/-- The record enqueued for schedA under the identity deriver. -/
def schedARewritten : CloudFunctionTrigger :=
  { name := "a", schedule := some {},
    eventTrigger := some { resource := some "a" } }

/-- A desired function named b with no schedule. -/
def plainB : CloudFunctionTrigger := { name := "b" }

/-- An existing backend record named b carrying the scheduled label. -/
def existingBScheduled : CloudFunctionTrigger :=
  { name := "b", labels := [("deployment-scheduled", "true")] }

/-- The plan produced in the C6 witness scenario. -/
def schedulesWitnessPlan : DeploymentPlan :=
  { regionalDeployments :=
      [{ region := "r",
         functionsToCreate := [schedARewritten],
         schedulesToCreateOrUpdate := [schedARewritten] },
       { region := "r2",
         functionsToUpdate := [plainB] }],
    functionsToDelete := [],
    schedulesToDelete := ["b"] }

/-- C6 witness: a schedule deletion (for b, which dropped its schedule) and
a schedule create (for a) coexist, and the created schedule's name differs
from the deleted one. -/
theorem createDeploymentPlan_schedules_delete_disjoint_witness :
    schedARewritten.name ≠ "b" :=
  createDeploymentPlan_schedules_delete_disjoint (fun _ _ => true) (fun _ => false)
    (fun n => n) ([] : List (List String))
    [("r", [schedA]), ("r2", [plainB])] [existingBScheduled]
    schedulesWitnessPlan (by decide) rfl
    "b" (List.mem_cons_self _ _)
    { region := "r",
      functionsToCreate := [schedARewritten],
      schedulesToCreateOrUpdate := [schedARewritten] }
    (List.mem_cons_self _ _)
    schedARewritten (List.mem_cons_self _ _)

/-- Desired function named x with no schedule. -/
def plainX : CloudFunctionTrigger := { name := "x" }

/-- Desired function named x with a schedule. -/
def scheduledX : CloudFunctionTrigger :=
  { name := "x", schedule := some {}, eventTrigger := some {} }

/-- The record enqueued for scheduledX under the identity deriver. -/
def scheduledXRewritten : CloudFunctionTrigger :=
  { name := "x", schedule := some {},
    eventTrigger := some { resource := some "x" } }

/-- An existing backend record named x carrying the scheduled label. -/
def existingXScheduled : CloudFunctionTrigger :=
  { name := "x", labels := [("deployment-scheduled", "true")] }

/-- The plan produced in the C6 counterexample scenario. -/
def schedulesCexPlan : DeploymentPlan :=
  { regionalDeployments :=
      [{ region := "r",
         functionsToCreate := [scheduledXRewritten],
         functionsToUpdate := [plainX],
         schedulesToCreateOrUpdate := [scheduledXRewritten] }],
    functionsToDelete := [],
    schedulesToDelete := ["x"] }

/-- C6 counterexample: with two same-named desired records — one that
dropped its schedule and one scheduled — processed in that order against a
scheduled existing record, the name x ends up in schedulesToDelete and also
names a record in schedulesToCreateOrUpdate, so the claim fails on arbitrary
inputs to createDeploymentPlan. -/
theorem createDeploymentPlan_schedules_delete_disjoint_cex :
    createDeploymentPlan (fun _ _ => true) (fun _ => true) (fun n => n)
        ([] : List (List String)) [("r", [plainX, scheduledX])] [existingXScheduled]
      = Except.ok schedulesCexPlan
    ∧ ¬ (∀ n ∈ schedulesCexPlan.schedulesToDelete,
          ∀ rd ∈ schedulesCexPlan.regionalDeployments,
            ∀ g ∈ rd.schedulesToCreateOrUpdate, g.name ≠ n) := by
  exact ⟨rfl, by decide⟩

/-! ## C7: uniqueness of create and update names across the plan -/

/-- All names a regional deployment targets for creation or update. -/
def cuNames (rd : RegionalDeployment) : List String :=
  rd.functionsToCreate.map (fun g => g.name) ++ rd.functionsToUpdate.map (fun g => g.name)

section NameUniqueness

variable (M : String → List (List String) → Bool)
variable (gtn : String → String)
variable (filters : List (List String))

theorem specStep_cuNames_perm (fn : CloudFunctionTrigger) (rd : RegionalDeployment)
    (sdel : List String) (ex : List CloudFunctionTrigger) :
    List.Perm (cuNames (specStep M gtn filters fn rd sdel ex).1)
      (cuNames rd ++ (if M fn.name filters then [fn.name] else [])) := by
  by_cases hM : M fn.name filters
  · rcases hm : ex.find? (fun exFn => exFn.name == fn.name) with _ | mf
    · have hupd : ¬(M fn.name filters = true
          ∧ (ex.find? (fun exFn => exFn.name == fn.name)).isSome) := by
        rw [hm]
        simp
      rw [cuNames, cuNames, specStep_create_eq, specStep_update_eq,
        if_pos (⟨hM, hm⟩ : M fn.name filters = true
          ∧ ex.find? (fun exFn => exFn.name == fn.name) = none),
        if_neg hupd, if_pos hM]
      simp only [List.map_append, List.append_nil, List.map_cons, List.map_nil,
        pushedFn_name]
      have h1 : List.Perm ([fn.name] ++ rd.functionsToUpdate.map (fun g => g.name))
          (rd.functionsToUpdate.map (fun g => g.name) ++ [fn.name]) :=
        List.perm_append_comm
      have h2 := List.Perm.append_left (rd.functionsToCreate.map (fun g => g.name)) h1
      simpa [List.append_assoc] using h2
    · have hupd : M fn.name filters = true
          ∧ (ex.find? (fun exFn => exFn.name == fn.name)).isSome := ⟨hM, by rw [hm]; rfl⟩
      have hcre : ¬(M fn.name filters = true
          ∧ ex.find? (fun exFn => exFn.name == fn.name) = none) := by
        rw [hm]
        simp
      rw [cuNames, cuNames, specStep_create_eq, specStep_update_eq, if_neg hcre,
        if_pos hupd, if_pos hM]
      simp only [List.map_append, List.append_nil, List.map_cons, List.map_nil,
        pushedFn_name, List.append_assoc]
      exact List.Perm.refl _
  · rw [cuNames, cuNames, specStep_create_eq, specStep_update_eq,
      if_neg (fun hc => hM hc.1), if_neg (fun hc => hM hc.1), if_neg hM]
    simp

theorem specFns_cuNames_perm (fns : List CloudFunctionTrigger) :
    ∀ (rd : RegionalDeployment) (sdel : List String) (ex : List CloudFunctionTrigger),
      List.Perm (cuNames (specFns M gtn filters fns rd sdel ex).1)
        (cuNames rd ++ (fns.filter (fun fn => M fn.name filters)).map (fun fn => fn.name)) := by
  induction fns with
  | nil => intro rd sdel ex; simp [specFns]
  | cons fn rest ih =>
    intro rd sdel ex
    simp only [specFns]
    have h1 := ih (specStep M gtn filters fn rd sdel ex).1
      (specStep M gtn filters fn rd sdel ex).2.1 (specStep M gtn filters fn rd sdel ex).2.2
    have h2 := specStep_cuNames_perm M gtn filters fn rd sdel ex
    have h3 := List.Perm.append_right
      ((rest.filter (fun fn => M fn.name filters)).map (fun fn => fn.name)) h2
    have h4 := h1.trans h3
    by_cases hM : M fn.name filters
    · simpa [List.filter_cons, hM, List.append_assoc] using h4
    · simpa [List.filter_cons, hM] using h4

theorem specRegions_cuNames_perm (m : RegionMap) :
    ∀ (plans : List RegionalDeployment) (sdel : List String) (ex : List CloudFunctionTrigger),
      List.Perm (((specRegions M gtn filters m plans sdel ex).1.map cuNames).flatten)
        ((plans.map cuNames).flatten
          ++ (m.map (fun p =>
              (p.2.filter (fun fn => M fn.name filters)).map (fun fn => fn.name))).flatten) := by
  induction m with
  | nil => intro plans sdel ex; simp [specRegions]
  | cons q rest ih =>
    obtain ⟨region, fns⟩ := q
    intro plans sdel ex
    simp only [specRegions]
    have h1 := ih
      (plans ++ [(specFns M gtn filters fns (emptyRegionalDeployment region) sdel ex).1])
      (specFns M gtn filters fns (emptyRegionalDeployment region) sdel ex).2.1
      (specFns M gtn filters fns (emptyRegionalDeployment region) sdel ex).2.2
    have h2 := specFns_cuNames_perm M gtn filters fns (emptyRegionalDeployment region) sdel ex
    have h2' : List.Perm
        (cuNames (specFns M gtn filters fns (emptyRegionalDeployment region) sdel ex).1)
        ((fns.filter (fun fn => M fn.name filters)).map (fun fn => fn.name)) := by
      simpa [cuNames, emptyRegionalDeployment] using h2
    simp only [List.map_append, List.flatten_append, List.map_cons, List.flatten_cons,
      List.map_nil, List.flatten_nil, List.append_nil, List.append_assoc] at h1 ⊢
    exact h1.trans (List.Perm.append_left _ (List.Perm.append_right _ h2'))

theorem selected_names_sublist (m : RegionMap) :
    List.Sublist
      ((m.map (fun p =>
          (p.2.filter (fun fn => M fn.name filters)).map (fun fn => fn.name))).flatten)
      ((m.map (fun p => p.2.map (fun fn => fn.name))).flatten) := by
  induction m with
  | nil => simp
  | cons q rest ih =>
    simp only [List.map_cons, List.flatten_cons]
    exact List.Sublist.append (List.Sublist.map _ (List.filter_sublist _)) ih

end NameUniqueness

/-- C7 (amended): provided the desired records across the whole region map
have pairwise-distinct names, every name appearing in functionsToCreate or
functionsToUpdate anywhere in the plan is unique — no name occurs twice in
one list, in both lists of one region, or in two different regions.  Without
that proviso the claim fails: duplicate region entries (acknowledged by the
mapper) put two same-named records into one region list and both are
enqueued. -/
theorem createDeploymentPlan_cu_names_nodup
    (M : String → List (List String) → Bool) (chk : List (String × String) → Bool)
    (gtn : String → String) (filters : List (List String))
    (m : RegionMap) (ex : List CloudFunctionTrigger) (plan : DeploymentPlan)
    (hnodup : ((m.map (fun p => p.2.map (fun fn => fn.name))).flatten).Nodup)
    (h : createDeploymentPlan M chk gtn filters m ex = Except.ok plan) :
    ((plan.regionalDeployments.map cuNames).flatten).Nodup := by
  obtain ⟨hplan, -⟩ := createDeploymentPlan_ok_elim M chk gtn filters m ex plan h
  subst hplan
  have hperm := specRegions_cuNames_perm M gtn filters m [] [] ex
  have hperm' : List.Perm
      (((specRegions M gtn filters m [] [] ex).1.map cuNames).flatten)
      ((m.map (fun p =>
          (p.2.filter (fun fn => M fn.name filters)).map (fun fn => fn.name))).flatten) := by
    simpa using hperm
  have hsel := hnodup.sublist (selected_names_sublist M filters m)
  simp only [specPlan]
  exact (hperm'.symm).nodup hsel

/-- C7 witness: a single selected function yields a plan with one create
name, trivially unique. -/
theorem createDeploymentPlan_cu_names_nodup_witness :
    ((({ regionalDeployments := [{ region := "r", functionsToCreate := [plainX] }],
         functionsToDelete := [],
         schedulesToDelete := [] } : DeploymentPlan).regionalDeployments.map
            cuNames).flatten).Nodup :=
  createDeploymentPlan_cu_names_nodup (fun _ _ => true) (fun _ => true) (fun n => n)
    ([] : List (List String)) [("r", [plainX])] ([] : List CloudFunctionTrigger)
    { regionalDeployments := [{ region := "r", functionsToCreate := [plainX] }],
      functionsToDelete := [],
      schedulesToDelete := [] }
    (by decide) rfl

/-- The plan produced for two same-named desired records in one region. -/
def duplicateNamesPlan : DeploymentPlan :=
  { regionalDeployments := [{ region := "r", functionsToCreate := [plainX, plainX] }],
    functionsToDelete := [],
    schedulesToDelete := [] }

/-- C7 counterexample: two same-named desired records in one region — exactly
what a duplicated regions entry produces — are both appended to
functionsToCreate, so the name x occurs twice and the claim fails on
arbitrary inputs to createDeploymentPlan. -/
theorem createDeploymentPlan_cu_names_nodup_cex :
    createDeploymentPlan (fun _ _ => true) (fun _ => true) (fun n => n)
        ([] : List (List String)) [("r", [plainX, plainX])] ([] : List CloudFunctionTrigger)
      = Except.ok duplicateNamesPlan
    ∧ ¬ (((duplicateNamesPlan.regionalDeployments.map cuNames).flatten).Nodup) := by
  exact ⟨rfl, by decide⟩
